import Mathlib

/-!
Verification of the tisza-scraper archive-discovery / incremental-harvest core.

Shallow embedding of the Python sources:
  * `news_crawler/backfill_domain_batches.py` (window partition, resume skip),
  * `news_crawler/adapters/regex_archive_adapter.py` (canonicalizer, extractor,
    range filter, listing traversal),
  * `hvg_archive_crawler.py` (extractor, range filter, `crawl_archivum` loop),
  * `news_crawler/repository.py` (upsert merge, `get_or_fetch_article`).

Machine integers are modelled as `Int`/`Nat`; Python `date` objects as either
proleptic-Gregorian ordinals (`Int`, 1 .. 3652059, for the batch partition,
matching `date.toordinal`) or as explicit year/month/day triples (for the
crawlers).  Fallible Python code (exceptions) is modelled with `Option`.
CPython's `urllib.parse` functions are re-implemented over `List Char`,
restricted to `str` inputs with `allow_fragments=True` (the only way the
repository calls them); the IPv6 bracket `ValueError` is modelled as `none`,
and `_checknetloc`/`_check_bracketed_host` checks that can only fire on
non-ASCII or bracketed hosts are omitted, as no claim exercises them.
-/

/-! ## Python primitives: `int()`, zero-padded formatting, whitespace -/

/-- ASCII whitespace characters stripped by Python's `str.strip()` and
ignored around `int()` literals (the Unicode extras are not modelled). -/
def pyWhitespace (c : Char) : Bool :=
  c = ' ' || c = '\t' || c = '\n' || c = '\x0d' || c = '\x0b' || c = '\x0c'

/-- Digits of a decimal literal: a nonempty digit run (CPython also allows
single underscores between digits; the repository only ever feeds regex
`\d` captures, so underscores are not modelled). -/
def pyDigits? : List Char → Option Nat
  | [] => none
  | cs =>
    if cs.all Char.isDigit then
      some (cs.foldl (fun acc c => acc * 10 + (c.toNat - '0'.toNat)) 0)
    else none

/-- Model of CPython `int(s)`: strip whitespace, optional sign, digit run;
`none` models the `ValueError` raised on anything else. -/
def pyInt (s : String) : Option Int :=
  let cs := (s.data.dropWhile pyWhitespace).reverse.dropWhile pyWhitespace |>.reverse
  match cs with
  | '+' :: rest => (pyDigits? rest).map Int.ofNat
  | '-' :: rest => (pyDigits? rest).map (fun n => -(Int.ofNat n))
  | rest => (pyDigits? rest).map Int.ofNat

/-- Decimal digits of a natural number, most significant first (the
fuel argument keeps the recursion structural; `n` itself is enough). -/
def natDigitsAux : Nat → Nat → List Char
  | 0, _ => []
  | _ + 1, 0 => []
  | fuel + 1, n + 1 =>
    natDigitsAux fuel ((n + 1) / 10) ++ [Char.ofNat ('0'.toNat + (n + 1) % 10)]

/-- Decimal digits of a natural number, most significant first. -/
def natDigits (n : Nat) : List Char :=
  natDigitsAux n n

/-- Model of Python's `f"{n:0wd}"`: decimal rendering zero-padded to width
`w` (the sign, if any, counts toward the width, as in CPython). -/
def padInt (w : Nat) (n : Int) : String :=
  let mag : List Char := if n = 0 then ['0'] else natDigits n.natAbs
  if n < 0 then
    String.mk ('-' :: List.replicate (w - 1 - mag.length) '0' ++ mag)
  else
    String.mk (List.replicate (w - mag.length) '0' ++ mag)

/-! ## Python `datetime.date` as year/month/day triples -/

/-- Leap-year rule used by `datetime.date` (proleptic Gregorian). -/
def isLeapYear (y : Int) : Bool :=
  y % 4 = 0 && (y % 100 ≠ 0 || y % 400 = 0)

/-- Number of days in a month, as enforced by the `datetime.date`
constructor. -/
def daysInMonth (y m : Int) : Int :=
  if m = 2 then (if isLeapYear y then 29 else 28)
  else if m = 4 || m = 6 || m = 9 || m = 11 then 30
  else 31

/-- Validity check performed by the `datetime.date(y, m, d)` constructor
(MINYEAR = 1, MAXYEAR = 9999). -/
def dateValid (y m d : Int) : Bool :=
  1 ≤ y && y ≤ 9999 && 1 ≤ m && m ≤ 12 && 1 ≤ d && d ≤ daysInMonth y m

/-- A constructed (hence valid) Python `date` value. -/
structure PyDate where
  year : Int
  month : Int
  day : Int
deriving DecidableEq, Repr

/-- Model of `datetime.date(y, m, d)`: `none` is the raised `ValueError`. -/
def mkDate (y m d : Int) : Option PyDate :=
  if dateValid y m d then some ⟨y, m, d⟩ else none

/-- Python `date` comparison is lexicographic on (year, month, day). -/
def dateLt (a b : PyDate) : Bool :=
  a.year < b.year ||
    (a.year = b.year &&
      (a.month < b.month || (a.month = b.month && a.day < b.day)))

/-- Non-strict `date` comparison. -/
def dateLe (a b : PyDate) : Bool :=
  a = b || dateLt a b

/-! ## `daterange_batches` (backfill_domain_batches.py, lines 100-109)

Dates are modelled as `date.toordinal()` values: `Int`s in
`[1, 3652059]` (`date.min` .. `date.max`); `timedelta(days = k)` addition
is ordinal addition, raising `OverflowError` outside that range. -/

/-- Ordinal of `date.max` (9999-12-31), per `datetime.date.max.toordinal()`. -/
def dateMaxOrdinal : Int := 3652059

/-- Model of Python `date + timedelta(days = k)`: `none` is the
`OverflowError` raised when the result leaves the `date` range. -/
def pyDateAddDays (o k : Int) : Option Int :=
  if 1 ≤ o + k ∧ o + k ≤ dateMaxOrdinal then some (o + k) else none

/-- Loop body of `daterange_batches`, with explicit fuel (the Python
`while` terminates whenever `step > 0`, which every proof assumes; fuel
`(end - start.toNat)` is shown sufficient).  `none` propagates the
`OverflowError` from `cur + delta`. -/
def daterangeGo (step e : Int) : Nat → Int → Option (List (Int × Int))
  | 0, _ => some []
  | fuel + 1, cur =>
    if cur < e then
      match pyDateAddDays cur step with
      | none => none
      | some s =>
        let nxt := min s e
        match daterangeGo step e fuel nxt with
        | none => none
        | some rest => some ((cur, nxt) :: rest)
    else some []

/-- Model of `daterange_batches(start, end, step_days)`: partitions
`[start, end)` into half-open windows of `step_days` days.  `none` models
the `OverflowError` raised when `cur + timedelta(step_days)` exceeds
`date.max` during the loop. -/
def daterange_batches (start e step : Int) : Option (List (Int × Int)) :=
  daterangeGo step e (e - start).toNat start

/-! ## CPython `urllib.parse` over `List Char`

Model of `urlsplit` / `urlparse` / `urlunsplit` / `urlunparse` / `urljoin`
as called by the repository (`str` inputs, `allow_fragments=True`).
`none` models the `ValueError` raised on an unbalanced IPv6 bracket. -/

/-- Bytes removed up front by `urlsplit` (`_UNSAFE_URL_BYTES_TO_REMOVE`). -/
def unsafeUrlChar (c : Char) : Bool :=
  c = '\t' || c = '\x0d' || c = '\n'

/-- Characters allowed in a URL scheme (`scheme_chars`). -/
def schemeChar (c : Char) : Bool :=
  c.isAlpha || c.isDigit || c = '+' || c = '-' || c = '.'

/-- Delimiters ending the network-location part (`_splitnetloc`). -/
def netlocDelim (c : Char) : Bool :=
  c = '/' || c = '?' || c = '#'

/-- Split a char list at the first occurrence of `ch` (Python
`s.split(ch, 1)`): the part before, and — when `ch` occurs — the part
after it. -/
def splitFirstChar (ch : Char) (l : List Char) : List Char × Option (List Char) :=
  if l.contains ch then
    (l.takeWhile (fun c => c ≠ ch), some ((l.dropWhile (fun c => c ≠ ch)).tail))
  else (l, none)

/-- Result of `urlsplit`. -/
structure UrlSplitC where
  scheme : List Char
  netloc : List Char
  path : List Char
  query : List Char
  fragment : List Char
deriving DecidableEq, Repr

/-- Fragment/query separation shared by both `urlsplit` branches. -/
def splitFragQuery (scheme netloc rest : List Char) : UrlSplitC :=
  let fq := splitFirstChar '#' rest
  let fragment := fq.2.getD []
  let pq := splitFirstChar '?' fq.1
  let query := pq.2.getD []
  ⟨scheme, netloc, pq.1, query, fragment⟩

/-- Model of CPython 3.11 `urllib.parse.urlsplit(url, scheme, True)`:
lstrip WHATWG C0-control-or-space characters, remove unsafe bytes,
detect and lower-case the scheme, split off the network location after a
leading `//`, then fragment and query.  `none` models the `ValueError`
on an unbalanced `[`/`]` in the netloc (further bracketed-host
validation, which needs a well-formed IPv6 host to get past this check,
is not modelled — no claim exercises it). -/
def urlsplitChars (url0 : List Char) (defaultScheme : List Char) : Option UrlSplitC :=
  let url1 := (url0.dropWhile (fun c => c.toNat ≤ 0x20)).filter (fun c => ! unsafeUrlChar c)
  let pre := url1.takeWhile (fun c => c ≠ ':')
  let schemeRest :=
    if pre.length < url1.length ∧ 0 < pre.length ∧
        (url1.headD ' ').isAlpha ∧ pre.all schemeChar then
      (pre.map Char.toLower, (url1.dropWhile (fun c => c ≠ ':')).tail)
    else (defaultScheme, url1)
  match schemeRest with
  | (scheme, '/' :: '/' :: rest2) =>
    let netloc := rest2.takeWhile (fun c => ! netlocDelim c)
    let rest3 := rest2.dropWhile (fun c => ! netlocDelim c)
    if (netloc.contains '[') != (netloc.contains ']') then none
    else some (splitFragQuery scheme netloc rest3)
  | (scheme, rest) => some (splitFragQuery scheme [] rest)

/-- Schemes for which `urlparse` separates `;parameters`
(`urllib.parse.uses_params`). -/
def usesParams : List (List Char) :=
  ["", "ftp", "hdl", "prospero", "http", "imap", "https", "shttp", "rtsp",
   "rtspu", "sip", "sips", "mms", "sftp", "tel"].map String.data

/-- Model of `urllib.parse._splitparams`: split `;params` off the last
path segment.  Only called when `';'` occurs in the path. -/
def splitparams (url : List Char) : List Char × List Char :=
  if url.contains '/' then
    let segRev := url.reverse.takeWhile (fun c => c ≠ '/')
    let pre := url.take (url.length - segRev.length)
    let seg := url.drop (url.length - segRev.length)
    if seg.contains ';' then
      (pre ++ seg.takeWhile (fun c => c ≠ ';'), (seg.dropWhile (fun c => c ≠ ';')).tail)
    else (url, [])
  else
    (url.takeWhile (fun c => c ≠ ';'), (url.dropWhile (fun c => c ≠ ';')).tail)

/-- Result of `urlparse` (a `SplitResult` plus `params`). -/
structure UrlParseC where
  scheme : List Char
  netloc : List Char
  path : List Char
  params : List Char
  query : List Char
  fragment : List Char
deriving DecidableEq, Repr

/-- Model of CPython `urllib.parse.urlparse(url, scheme, True)`. -/
def urlparseChars (url : List Char) (defaultScheme : List Char) : Option UrlParseC :=
  match urlsplitChars url defaultScheme with
  | none => none
  | some sp =>
    if usesParams.contains sp.scheme ∧ sp.path.contains ';' then
      let pp := splitparams sp.path
      some ⟨sp.scheme, sp.netloc, pp.1, pp.2, sp.query, sp.fragment⟩
    else
      some ⟨sp.scheme, sp.netloc, sp.path, [], sp.query, sp.fragment⟩

/-- Schemes allowing relative resolution (`urllib.parse.uses_relative`). -/
def usesRelative : List (List Char) :=
  ["", "ftp", "http", "gopher", "nntp", "imap", "wais", "file", "https",
   "shttp", "mms", "prospero", "rtsp", "rtspu", "sftp", "svn", "svn+ssh",
   "ws", "wss"].map String.data

/-- Schemes using a network location (`urllib.parse.uses_netloc`). -/
def usesNetloc : List (List Char) :=
  ["", "ftp", "http", "gopher", "nntp", "telnet", "imap", "wais", "file",
   "mms", "https", "shttp", "snews", "prospero", "rtsp", "rtspu", "rsync",
   "svn", "svn+ssh", "sftp", "nfs", "git", "git+ssh", "ws", "wss"].map String.data

/-- Model of CPython 3.11 `urllib.parse.urlunsplit`. -/
def urlunsplitChars (scheme netloc url query fragment : List Char) : List Char :=
  let url1 :=
    if netloc ≠ [] ∨ (scheme ≠ [] ∧ usesNetloc.contains scheme ∧ url.take 2 ≠ ['/', '/']) then
      let u2 := if url ≠ [] ∧ url.take 1 ≠ ['/'] then '/' :: url else url
      '/' :: '/' :: (netloc ++ u2)
    else url
  let url2 := if scheme ≠ [] then scheme ++ ':' :: url1 else url1
  let url3 := if query ≠ [] then url2 ++ '?' :: query else url2
  if fragment ≠ [] then url3 ++ '#' :: fragment else url3

/-- Model of CPython `urllib.parse.urlunparse`. -/
def urlunparseChars (pr : UrlParseC) : List Char :=
  let url := if pr.params ≠ [] then pr.path ++ ';' :: pr.params else pr.path
  urlunsplitChars pr.scheme pr.netloc url pr.query pr.fragment

/-- Model of Python `s.rstrip(ch)` for a single strip character: removes
every trailing occurrence. -/
def pyRstripChar (ch : Char) (l : List Char) : List Char :=
  (l.reverse.dropWhile (fun c => c = ch)).reverse

/-- Model of Python `s.lower()` (ASCII; the repository only lower-cases
hosts and domains). -/
def pyLower (s : String) : String :=
  String.mk (s.data.map Char.toLower)

/-- Model of `RegexArchiveAdapter._canonicalize` (regex_archive_adapter.py,
lines 47-57) and of the textually identical `canonicalize_url`
(hvg_archive_crawler.py, lines 82-92): force the scheme to `https` (when
`force_https`), lower-case the host, and, for a non-root path ending in
`/`, apply `path.rstrip("/")`.  The surrounding `except Exception` returns
the input unchanged when `urlparse` raises. -/
def canonicalize_url (forceHttps : Bool) (u : String) : String :=
  match urlparseChars u.data [] with
  | none => u
  | some pr =>
    let scheme := if forceHttps then "https".data
      else (if pr.scheme = [] then "https".data else pr.scheme)
    let netloc := pr.netloc.map Char.toLower
    let path0 := if pr.path = [] then ['/'] else pr.path
    let path := if path0 ≠ ['/'] ∧ path0.getLast? = some '/' then pyRstripChar '/' path0 else path0
    String.mk (urlunparseChars ⟨scheme, netloc, path, pr.params, pr.query, pr.fragment⟩)

/-- Python `s.split(ch)` on a char list; the result is always nonempty. -/
def splitOnChar (ch : Char) : List Char → List (List Char)
  | [] => [[]]
  | c :: rest =>
    if c = ch then [] :: splitOnChar ch rest
    else
      match splitOnChar ch rest with
      | s :: ss => (c :: s) :: ss
      | [] => [[c]]

/-- The slice assignment `segments[1:-1] = filter(None, segments[1:-1])`
from `urljoin`: drop empty segments strictly between the first and last. -/
def filterMiddle (l : List (List Char)) : List (List Char) :=
  match l with
  | [] => []
  | [a] => [a]
  | a :: rest => a :: (rest.dropLast.filter (fun s => ! s.isEmpty) ++ rest.drop (rest.length - 1))

/-- Dot-segment resolution loop of `urljoin` (`..` pops, `.` is skipped,
popping an empty stack is ignored). -/
def resolveSegs (acc : List (List Char)) : List (List Char) → List (List Char)
  | [] => acc
  | seg :: rest =>
    if seg = ['.', '.'] then resolveSegs acc.dropLast rest
    else if seg = ['.'] then resolveSegs acc rest
    else resolveSegs (acc ++ [seg]) rest

/-- Model of CPython `urllib.parse.urljoin(base, url)`; `none` models a
propagated parse `ValueError`. -/
def urljoinChars (base url : List Char) : Option (List Char) :=
  if base = [] then some url
  else if url = [] then some base
  else
    match urlparseChars base [] with
    | none => none
    | some b =>
      match urlparseChars url b.scheme with
      | none => none
      | some r =>
        if r.scheme ≠ b.scheme ∨ ¬ usesRelative.contains r.scheme then some url
        else
          let netlocEarly :=
            if usesNetloc.contains r.scheme then
              if r.netloc ≠ [] then (r.netloc, true) else (b.netloc, false)
            else (r.netloc, false)
          if netlocEarly.2 then
            some (urlunparseChars ⟨r.scheme, netlocEarly.1, r.path, r.params, r.query, r.fragment⟩)
          else
            let netloc := netlocEarly.1
            if r.path = [] ∧ r.params = [] then
              let query := if r.query = [] then b.query else r.query
              some (urlunparseChars ⟨r.scheme, netloc, b.path, b.params, query, r.fragment⟩)
            else
              let bp := splitOnChar '/' b.path
              let baseParts := if bp.getLast? = some [] then bp else bp.dropLast
              let segments :=
                if r.path.take 1 = ['/'] then splitOnChar '/' r.path
                else filterMiddle (baseParts ++ splitOnChar '/' r.path)
              let resolved := resolveSegs [] segments
              let resolved2 :=
                if segments.getLast? = some ['.'] ∨ segments.getLast? = some ['.', '.'] then
                  resolved ++ [[]]
                else resolved
              let joined := List.intercalate ['/'] resolved2
              let path2 := if joined = [] then ['/'] else joined
              some (urlunparseChars ⟨r.scheme, netloc, path2, r.params, r.query, r.fragment⟩)

/-! ## Regex-match-level URL extraction

The Python extractors run compiled regexes over the page and then
post-process each `re.Match`.  The regex engine is outside the embedding:
a page is represented by the list of matches each pattern produced, a
match by its full text (`group(0)`) and its capture groups
(`None` = non-participating group). -/

/-- A Python `re.Match`: full match text and capture groups 1..n. -/
structure PyMatch where
  group0 : String
  groups : List (Option String)
deriving DecidableEq, Repr

/-- Model of `m.group(k)` for `k ≥ 1` as used under `try`: an
out-of-range index (`IndexError`) and a non-participating group (whose
`None` makes `int()` raise) both end up as `none`. -/
def mgroup (m : PyMatch) (k : Nat) : Option String :=
  (m.groups.get? (k - 1)).join

/-- The `int(m.group(k))` step: group lookup followed by `int()`. -/
def groupInt (m : PyMatch) (k : Nat) : Option Int :=
  (mgroup m k).bind pyInt

/-- The date-guess block of `RegexArchiveAdapter._extract`: from groups
`g`, `g+1`, `g+2` build `f"{y:04d}-{mo:02d}-{d:02d}"`; any failure inside
the `try` yields `None`.  Note: no calendar validation is performed. -/
def adapter_pub (m : PyMatch) (g : Nat) : Option String :=
  match groupInt m g, groupInt m (g + 1), groupInt m (g + 2) with
  | some y, some mo, some d =>
    some (padInt 4 y ++ "-" ++ padInt 2 mo ++ "-" ++ padInt 2 d)
  | _, _, _ => none

/-- The date-guess block of `extract_article_links`
(hvg_archive_crawler.py): `date(int(g1), int(g2), int(g3))`, with any
exception giving `None`; the `date` constructor enforces calendar
validity. -/
def hvg_date (m : PyMatch) : Option PyDate :=
  match groupInt m 1, groupInt m 2, groupInt m 3 with
  | some y, some mo, some d => mkDate y mo d
  | _, _, _ => none

/-- Whitespace class `\s` of the embedded `href` regexes (ASCII part). -/
def pyRegexWs (c : Char) : Bool := pyWhitespace c

/-- Python `s.strip()` on a char list (ASCII whitespace). -/
def stripPy (l : List Char) : List Char :=
  ((l.dropWhile pyWhitespace).reverse.dropWhile pyWhitespace).reverse

/-- Try to match `href\s*=\s*(['"])(.*?)\1` at the start of `l`,
returning group 2 (the quoted value).  `.` does not cross a newline, so
the closing quote must occur before any `'\n'`. -/
def matchHrefAt (l : List Char) : Option (List Char) :=
  if (l.take 4).map Char.toLower = ['h', 'r', 'e', 'f'] ∧ 4 ≤ l.length then
    match (l.drop 4).dropWhile pyRegexWs with
    | '=' :: rest2 =>
      match rest2.dropWhile pyRegexWs with
      | q :: rest4 =>
        if q = '\'' ∨ q = '"' then
          let content := rest4.takeWhile (fun c => c ≠ q ∧ c ≠ '\n')
          if (rest4.drop content.length).head? = some q then some content else none
        else none
      | [] => none
    | _ => none
  else none

/-- Model of `re.search(r'href\s*=\s*([\'"])(.*?)\1', attr, IGNORECASE)`:
leftmost match wins; returns group 2. -/
def searchHref : List Char → Option (List Char)
  | [] => none
  | c :: rest =>
    match matchHrefAt (c :: rest) with
    | some g => some g
    | none => searchHref rest

/-- The `re.sub(r'^\s*href\s*=\s*', '', attr, IGNORECASE)` fallback of
`_extract_href_value`: remove one anchored `href =` introducer. -/
def subLeadingHref (cs : List Char) : List Char :=
  let a := cs.dropWhile pyRegexWs
  if (a.take 4).map Char.toLower = ['h', 'r', 'e', 'f'] ∧ 4 ≤ a.length then
    match (a.drop 4).dropWhile pyRegexWs with
    | '=' :: r => r.dropWhile pyRegexWs
    | _ => cs
  else cs

/-- Model of `RegexArchiveAdapter._extract_href_value` (lines 59-66). -/
def extract_href_value (attr : String) : String :=
  match searchHref attr.data with
  | some g => String.mk (stripPy g)
  | none =>
    let s := stripPy (subLeadingHref attr.data)
    let s2 :=
      if (s.head? = some '"' ∧ s.getLast? = some '"') ∨
          (s.head? = some '\'' ∧ s.getLast? = some '\'') then
        s.tail.dropLast
      else s
    String.mk (stripPy s2)

/-- The shared `seen`-set dedup loop of both extractors: keep an item
whose key has not been seen, first occurrence wins. -/
def dedupBy (key : α → String) (seen : List String) : List α → List α
  | [] => []
  | a :: rest =>
    if seen.contains (key a) then dedupBy key seen rest
    else a :: dedupBy key (key a :: seen) rest

/-- Specification-side dedup: keep the first occurrence of each key,
dropping every later one (used to state C9). -/
def firstDedupBy (key : α → String) : List α → List α
  | [] => []
  | a :: rest => a :: firstDedupBy key (rest.filter (fun b => key b ≠ key a))
termination_by l => l.length
decreasing_by
  simp only [List.length_cons]
  exact Nat.lt_succ_of_le (List.length_filter_le _ _)

/-- URL of one relative match in `RegexArchiveAdapter._extract`:
`canonicalize(urljoin(base_url.rstrip('/') + '/', extract_href_value(m.group(0))))`.
`none` models a propagated `urljoin` `ValueError` (not caught there). -/
def adapter_rel_url (forceHttps : Bool) (baseUrl : String) (m : PyMatch) : Option String :=
  (urljoinChars (pyRstripChar '/' baseUrl.data ++ ['/']) (extract_href_value m.group0).data).map
    (fun u => canonicalize_url forceHttps (String.mk u))

/-- Model of `RegexArchiveAdapter._extract` (lines 71-101): absolute
matches canonicalized directly, relative matches resolved against the
base URL, shared first-seen dedup on the canonical URL.  `none` models a
`ValueError` escaping from `urljoin` (the `try` blocks only guard the
date parsing). -/
def adapter_extract (forceHttps : Bool) (baseUrl : String)
    (absMatches relMatches : List PyMatch) : Option (List (String × Option String)) :=
  let absPairs := absMatches.map fun m =>
    (canonicalize_url forceHttps m.group0, adapter_pub m 1)
  match relMatches.mapM (fun m => (adapter_rel_url forceHttps baseUrl m).map
      (fun u => (u, adapter_pub m 2))) with
  | none => none
  | some relPairs => some (dedupBy Prod.fst [] (absPairs ++ relPairs))

/-- The `FoundUrl` dataclass of hvg_archive_crawler.py. -/
structure FoundUrl where
  url : String
  pubdateGuess : Option PyDate
deriving DecidableEq, Repr

/-- One relative match of `extract_article_links`: `none` = skipped
(no `href` value, or a `#`/`javascript:` link), `some none` = propagated
error, `some (some fu)` = produced entry.  Mirrors lines 123-142. -/
def hvg_rel_entry (forceHttps : Bool) (baseUrl : String) (m : PyMatch) : Option (Option FoundUrl) :=
  match searchHref m.group0.data with
  | none => none
  | some relValue =>
    if relValue.head? = some '#' ∨ (relValue.map Char.toLower).take 11 = "javascript:".data then
      none
    else
      match urljoinChars (pyRstripChar '/' baseUrl.data ++ ['/']) (relValue.dropWhile (fun c => c = '/')) with
      | none => some none
      | some u => some (some ⟨canonicalize_url forceHttps (String.mk u), hvg_date m⟩)

/-- Model of `extract_article_links` (hvg_archive_crawler.py, lines
104-144): absolute then relative matches, first-seen dedup on the
canonical URL.  `none` models a propagated `urljoin` error. -/
def extract_article_links (forceHttps : Bool) (baseUrl : String)
    (absMatches relMatches : List PyMatch) : Option (List FoundUrl) :=
  let absEntries : List FoundUrl := absMatches.map fun m =>
    ⟨canonicalize_url forceHttps m.group0, hvg_date m⟩
  let relSteps := relMatches.filterMap (hvg_rel_entry forceHttps baseUrl)
  if relSteps.contains none then none
  else some (dedupBy FoundUrl.url [] (absEntries ++ relSteps.reduceOption))

/-! ## Range filters and traversal loops -/

/-- Model of `RegexArchiveAdapter._within_range`'s date parsing:
`y, m, d = map(int, pub.split("-")); date(y, m, d)`, every exception
giving `none`. -/
def parse_pub_date (s : String) : Option PyDate :=
  match (splitOnChar '-' s.data).map String.mk with
  | [ys, ms, ds] =>
    match pyInt ys, pyInt ms, pyInt ds with
    | some y, some mo, some d => mkDate y mo d
    | _, _, _ => none
  | _ => none

/-- Model of `RegexArchiveAdapter._within_range` (lines 178-188): a
missing or unparseable date is rejected outright; otherwise the parsed
date must respect the optional bounds. -/
def adapter_within_range (pub : Option String) (start endExcl : Option PyDate) : Bool :=
  match pub with
  | none => false
  | some s =>
    match parse_pub_date s with
    | none => false
    | some dt =>
      if start.any (fun st => dateLt dt st) then false
      else if endExcl.any (fun en => dateLe en dt) then false
      else true

/-- Model of `within_range` (hvg_archive_crawler.py, lines 147-154): a
missing date passes iff `allow_missing`. -/
def within_range (d : Option PyDate) (start endExcl : Option PyDate) (allowMissing : Bool) : Bool :=
  match d with
  | none => allowMissing
  | some dt =>
    if start.any (fun st => dateLt dt st) then false
    else if endExcl.any (fun en => dateLe en dt) then false
    else true

/-! ## The unified `Article` dataclass (models.py) -/

/-- The `Article` dataclass.  `label_score` is a SQLite `REAL` whose value
is only ever stored and compared, never computed with; it is modelled as
`Int` to keep equality decidable. -/
structure Article where
  id : String
  title : String
  link : String
  published : Option String := none
  source : Option String := none
  content : Option String := none
  matched_tags : List String := []
  ts : Option Int := none
  label : Option String := none
  label_score : Option Int := none
  cluster_id : Option Int := none
deriving DecidableEq, Repr

/-! ## SHA-256 (`hashlib.sha256(url.encode("utf-8")).hexdigest()`)

A direct FIPS-180-4 implementation over `Nat` with explicit `% 2^32`;
used only to model the stable article id. -/

/-- UTF-8 encoding of one scalar value. -/
def utf8EncodeChar (c : Char) : List Nat :=
  let n := c.toNat
  if n < 0x80 then [n]
  else if n < 0x800 then
    [0xC0 ||| (n >>> 6), 0x80 ||| (n &&& 0x3F)]
  else if n < 0x10000 then
    [0xE0 ||| (n >>> 12), 0x80 ||| ((n >>> 6) &&& 0x3F), 0x80 ||| (n &&& 0x3F)]
  else
    [0xF0 ||| (n >>> 18), 0x80 ||| ((n >>> 12) &&& 0x3F),
     0x80 ||| ((n >>> 6) &&& 0x3F), 0x80 ||| (n &&& 0x3F)]

/-- Python `s.encode("utf-8")` as a byte list. -/
def utf8Bytes (s : String) : List Nat :=
  (s.data.map utf8EncodeChar).flatten

/-- Big-endian bytes of a value, fixed width. -/
def beBytes (w n : Nat) : List Nat :=
  (List.range w).map (fun i => (n >>> ((w - 1 - i) * 8)) &&& 0xFF)

/-- SHA-256 message padding. -/
def sha256Pad (msg : List Nat) : List Nat :=
  msg ++ 0x80 :: List.replicate ((56 + 64 - (msg.length + 1) % 64) % 64) 0 ++
    beBytes 8 (msg.length * 8)

/-- Pack big-endian byte quadruples into 32-bit words. -/
def bytesToWords : List Nat → List Nat
  | b0 :: b1 :: b2 :: b3 :: rest =>
    ((b0 <<< 24) ||| (b1 <<< 16) ||| (b2 <<< 8) ||| b3) :: bytesToWords rest
  | _ => []

/-- 32-bit right rotation. -/
def rotr32 (n x : Nat) : Nat :=
  ((x >>> n) ||| (x <<< (32 - n))) % 2 ^ 32

/-- SHA-256 round constants (FIPS 180-4; written in decimal). -/
def sha256K : List Nat :=
  [1116352408, 1899447441, 3049323471, 3921009573, 961987163,
   1508970993, 2453635748, 2870763221, 3624381080, 310598401,
   607225278, 1426881987, 1925078388, 2162078206, 2614888103,
   3248222580, 3835390401, 4022224774, 264347078, 604807628,
   770255983, 1249150122, 1555081692, 1996064986, 2554220882,
   2821834349, 2952996808, 3210313671, 3336571891, 3584528711,
   113926993, 338241895, 666307205, 773529912, 1294757372,
   1396182291, 1695183700, 1986661051, 2177026350, 2456956037,
   2730485921, 2820302411, 3259730800, 3345764771, 3516065817,
   3600352804, 4094571909, 275423344, 430227734, 506948616,
   659060556, 883997877, 958139571, 1322822218, 1537002063,
   1747873779, 1955562222, 2024104815, 2227730452, 2361852424,
   2428436474, 2756734187, 3204031479, 3329325298]

/-- Extend a 16-word block to the 64-word message schedule. -/
def sha256Schedule : Nat → List Nat → List Nat
  | 0, w => w
  | k + 1, w =>
    let n := w.length
    let g (j : Nat) : Nat := w.getD (n - j) 0
    let s0 := (rotr32 7 (g 15)) ^^^ (rotr32 18 (g 15)) ^^^ ((g 15) >>> 3)
    let s1 := (rotr32 17 (g 2)) ^^^ (rotr32 19 (g 2)) ^^^ ((g 2) >>> 10)
    sha256Schedule k (w ++ [(g 16 + s0 + g 7 + s1) % 2 ^ 32])

/-- Working state of the compression function. -/
structure Sha8 where
  a : Nat
  b : Nat
  c : Nat
  d : Nat
  e : Nat
  f : Nat
  g : Nat
  h : Nat

/-- One SHA-256 round. -/
def sha256Round (st : Sha8) (kw : Nat × Nat) : Sha8 :=
  let s1 := (rotr32 6 st.e) ^^^ (rotr32 11 st.e) ^^^ (rotr32 25 st.e)
  let ch := (st.e &&& st.f) ^^^ ((st.e ^^^ (2 ^ 32 - 1)) &&& st.g)
  let t1 := (st.h + s1 + ch + kw.1 + kw.2) % 2 ^ 32
  let s0 := (rotr32 2 st.a) ^^^ (rotr32 13 st.a) ^^^ (rotr32 22 st.a)
  let mj := (st.a &&& st.b) ^^^ (st.a &&& st.c) ^^^ (st.b &&& st.c)
  let t2 := (s0 + mj) % 2 ^ 32
  ⟨(t1 + t2) % 2 ^ 32, st.a, st.b, st.c, (st.d + t1) % 2 ^ 32, st.e, st.f, st.g⟩

/-- Process one 16-word chunk. -/
def sha256Chunk (hs : List Nat) (chunk : List Nat) : List Nat :=
  let w := sha256Schedule 48 chunk
  let st0 : Sha8 := ⟨hs.getD 0 0, hs.getD 1 0, hs.getD 2 0, hs.getD 3 0,
    hs.getD 4 0, hs.getD 5 0, hs.getD 6 0, hs.getD 7 0⟩
  let st := (sha256K.zip w).foldl sha256Round st0
  [(hs.getD 0 0 + st.a) % 2 ^ 32, (hs.getD 1 0 + st.b) % 2 ^ 32,
   (hs.getD 2 0 + st.c) % 2 ^ 32, (hs.getD 3 0 + st.d) % 2 ^ 32,
   (hs.getD 4 0 + st.e) % 2 ^ 32, (hs.getD 5 0 + st.f) % 2 ^ 32,
   (hs.getD 6 0 + st.g) % 2 ^ 32, (hs.getD 7 0 + st.h) % 2 ^ 32]

/-- Fold the compression over all 16-word chunks. -/
def sha256Chunks (hs : List Nat) : Nat → List Nat → List Nat
  | 0, _ => hs
  | k + 1, ws => sha256Chunks (sha256Chunk hs (ws.take 16)) k (ws.drop 16)

/-- Lowercase hex rendering of a 32-bit word. -/
def hexWord (n : Nat) : List Char :=
  (List.range 8).map (fun i =>
    let d := (n >>> ((7 - i) * 4)) &&& 0xF
    if d < 10 then Char.ofNat ('0'.toNat + d) else Char.ofNat ('a'.toNat + d - 10))

/-- Model of `hashlib.sha256(s.encode("utf-8")).hexdigest()`. -/
def sha256hex (s : String) : String :=
  let ws := bytesToWords (sha256Pad (utf8Bytes s))
  let hs := sha256Chunks
    [1779033703, 3144134277, 1013904242, 2773480762,
     1359893119, 2600822924, 528734635, 1541459225] (ws.length / 16) ws
  String.mk (hs.map hexWord).flatten

/-! ## `RegexArchiveAdapter._yield_matches` and the listing traversal -/

/-- Model of `_yield_matches` (lines 190-205): skip already-seen URLs,
reject out-of-range dates (without marking them seen), otherwise yield a
meta-only `Article` and mark the URL seen.  `now` stands for
`int(time.time())`. -/
def yield_matches (domain : String) (now : Int) (start endExcl : Option PyDate)
    (seen : List String) : List (String × Option String) → List Article × List String
  | [] => ([], seen)
  | (url, pub) :: rest =>
    if seen.contains url then
      yield_matches domain now start endExcl seen rest
    else if ¬ adapter_within_range pub start endExcl then
      yield_matches domain now start endExcl seen rest
    else
      let out := yield_matches domain now start endExcl (url :: seen) rest
      ({ id := sha256hex url, title := "", link := url, published := pub,
         source := some domain, ts := some now } :: out.1, out.2)

/-- State of the adapter's archivum pagination: accumulated articles, the
run-wide `seen` set, and the number of fetch attempts made. -/
structure ListingState where
  out : List Article
  seen : List String
  fetched : Nat
deriving Repr

/-- Loop body of the `"archivum"` phase of `RegexArchiveAdapter.iter_archive`
(lines 221-241).  `fetch p` is `_extract(_fetch_text(page_url p))`: `none`
when the fetch returned nothing, otherwise the extracted matches.  The
early stop fires when a start bound exists, every link on the page falls
before it (lower bound only), and the page index is greater than 1.  Fuel
is the number of remaining pages (`_max_pages` bounds the loop). -/
def listingGo (fetch : Nat → Option (List (String × Option String)))
    (domain : String) (now : Int) (start endExcl : Option PyDate) :
    Nat → Nat → ListingState → ListingState
  | 0, _, s => s
  | fuel + 1, pageI, s =>
    match fetch pageI with
    | none => listingGo fetch domain now start endExcl fuel (pageI + 1)
        { s with fetched := s.fetched + 1 }
    | some ms =>
      let s1 := { s with fetched := s.fetched + 1 }
      if start.isSome ∧ ms.all (fun p => ! adapter_within_range p.2 start none) ∧
          pageI > 1 then s1
      else
        let ym := yield_matches domain now start endExcl s1.seen ms
        listingGo fetch domain now start endExcl fuel (pageI + 1)
          { out := s1.out ++ ym.1, seen := ym.2, fetched := s1.fetched }

/-- The `"archivum"` phase of `iter_archive`: pages 1 .. `maxPages`. -/
def iter_archive_listing (fetch : Nat → Option (List (String × Option String)))
    (domain : String) (now : Int) (start endExcl : Option PyDate) (maxPages : Nat) :
    ListingState :=
  listingGo fetch domain now start endExcl maxPages 1 ⟨[], [], 0⟩

/-! ## `crawl_archivum` (hvg_archive_crawler.py, lines 157-219) -/

/-- Mutable state of the `crawl_archivum` loop, including the `counters`
dict entries it updates. -/
structure CrawlState where
  found : List FoundUrl
  seen : List String
  page : Nat
  emptyStreak : Nat
  inRangeSeen : Bool
  pagesFetched : Nat
  pageFetchErrors : Nat
  dupLinks : Nat
  rangeFiltered : Nat
  linksSeen : Nat
deriving Repr

/-- The per-page link loop of `crawl_archivum` (lines 200-211): dedup
against the run-wide `seen`, filter by `within_range`, count accepted
links, and record whether any accepted link carried a date.  Returns the
updated state and `new_on_page`. -/
def crawlProcessLinks (start endExcl : Option PyDate) (allowMissing : Bool) :
    CrawlState → List FoundUrl → CrawlState × Nat
  | s, [] => (s, 0)
  | s, fu :: rest =>
    if s.seen.contains fu.url then
      crawlProcessLinks start endExcl allowMissing { s with dupLinks := s.dupLinks + 1 } rest
    else if within_range fu.pubdateGuess start endExcl allowMissing then
      let s2 := { s with
        found := s.found ++ [fu]
        seen := fu.url :: s.seen
        inRangeSeen := s.inRangeSeen || fu.pubdateGuess.isSome }
      let r := crawlProcessLinks start endExcl allowMissing s2 rest
      (r.1, r.2 + 1)
    else
      crawlProcessLinks start endExcl allowMissing
        { s with rangeFiltered := s.rangeFiltered + 1 } rest

/-- State after one successfully fetched page of `crawl_archivum`
(before the break test): counters bumped, links processed, `empty_streak`
reset on a productive page and incremented otherwise. -/
def crawlStep (start endExcl : Option PyDate) (allowMissing : Bool)
    (s : CrawlState) (links : List FoundUrl) : CrawlState :=
  let s1 := { s with pagesFetched := s.pagesFetched + 1, linksSeen := s.linksSeen + links.length }
  let pr := crawlProcessLinks start endExcl allowMissing s1 links
  { pr.1 with emptyStreak := if pr.2 > 0 then 0 else s.emptyStreak + 1 }

/-- Model of the `while True` loop of `crawl_archivum`.  `fetch p` is
`extract_article_links(fetch_text(page p))`: `none` is a failed fetch.
On a failed fetch the loop breaks when `in_range_seen` and the streak has
reached 3; on a fetched page it additionally requires `start` to be set.
Fuel cuts the (otherwise possibly unbounded) loop; every theorem supplies
enough. -/
def crawl_archivum (fetch : Nat → Option (List FoundUrl))
    (start endExcl : Option PyDate) (allowMissing : Bool) (maxPages : Option Nat) :
    Nat → CrawlState → CrawlState
  | 0, s => s
  | fuel + 1, s =>
    if maxPages.any (fun m => s.page > m) then s
    else
      match fetch s.page with
      | none =>
        let s2 := { s with
          pagesFetched := s.pagesFetched + 1
          pageFetchErrors := s.pageFetchErrors + 1
          emptyStreak := s.emptyStreak + 1 }
        if s2.inRangeSeen ∧ s2.emptyStreak ≥ 3 then s2
        else crawl_archivum fetch start endExcl allowMissing maxPages fuel
          { s2 with page := s2.page + 1 }
      | some links =>
        let s3 := crawlStep start endExcl allowMissing s links
        if s3.inRangeSeen ∧ s3.emptyStreak ≥ 3 ∧ start.isSome then s3
        else crawl_archivum fetch start endExcl allowMissing maxPages fuel
          { s3 with page := s3.page + 1 }

/-- Initial state of `crawl_archivum` (page 1, empty counters). -/
def crawlInit : CrawlState :=
  ⟨[], [], 1, 0, false, 0, 0, 0, 0, 0⟩

/-! ## Batch orchestrator resume logic (backfill_domain_batches.py, main) -/

/-- A batch window, as an ordered pair of date ordinals `(df, dt)`. -/
abbrev Window := Int × Int

/-- Observable per-window actions of the orchestrator loop: the meta
crawl (fetches + upserts), the content backfill (fetches + upserts), the
copy into the window-scoped store, and the report write. -/
inductive BatchEffect where
  | crawlMeta (w : Window)
  | contentFill (w : Window)
  | copyToBatch (w : Window)
  | writeReport (w : Window) (success : Bool)
deriving DecidableEq, Repr

/-- The window an effect concerns. -/
def effectWindow : BatchEffect → Window
  | .crawlMeta w => w
  | .contentFill w => w
  | .copyToBatch w => w
  | .writeReport w _ => w

/-- The resume/force decision of `main` (lines 320-327).  The prior
report is `none` when no report file exists, `some none` when the file
exists but does not parse as JSON (the exception is swallowed and the
window runs), and `some (some b)` when it parses with truthy-ness `b` of
its `success` field. -/
def skip_window (resume force : Bool) (report : Option (Option Bool)) : Bool :=
  match report with
  | none => false
  | some none => false
  | some (some succ) => !force && resume && succ

/-- The per-window body of `main` (lines 309-403), at effect granularity:
a skipped window contributes nothing, a processed window crawls, fills
content, copies into the batch store and writes a report whose `success`
is the conjunction of the two integrity checks. -/
def window_effects (resume force : Bool) (report : Option (Option Bool))
    (integrity : Bool × Bool) (w : Window) : List BatchEffect :=
  if skip_window resume force report then []
  else
    [.crawlMeta w, .contentFill w, .copyToBatch w,
     .writeReport w (integrity.1 && integrity.2)]

/-- The orchestrator loop of `main` over the window list produced by
`daterange_batches` (the SIGINT stop flag, which can only cut the list
short between windows, is not modelled). -/
def run_batches (resume force : Bool) (reports : Window → Option (Option Bool))
    (integrity : Window → Bool × Bool) : List Window → List BatchEffect
  | [] => []
  | w :: ws =>
    window_effects resume force (reports w) (integrity w) w ++
      run_batches resume force reports integrity ws

/-! ## The repository (repository.py)

The SQLite state observable through the modelled operations: the
`sources` table as `(id, domain)` pairs with the AUTOINCREMENT cursor,
and the `articles` table as a list of rows. -/

/-- One row of the `articles` table.  `label_score` (`REAL`) is modelled
as `Int`: the merge logic only stores and compares it. -/
structure Row where
  id : String
  source_id : Nat
  url : String
  title : Option String
  content : Option String
  summary : Option String
  published_date : Option String
  path_year : Option Int
  path_month : Option Int
  path_day : Option Int
  sectionCol : Option String
  tags : Option String
  matched_tags : Option String
  author : Option String
  label : Option String
  label_score : Option Int
  cluster_id : Option Int
  created_at : Int
  updated_at : Int
deriving DecidableEq, Repr

/-- The repository state. -/
structure Store where
  sources : List (Nat × String)
  nextSourceId : Nat
  articles : List Row
deriving DecidableEq, Repr

/-- Model of `Repository._get_or_create_source_id` (lines 185-204):
look the lower-cased domain up, inserting a fresh row if absent (only
the `(id, domain)` projection of the `sources` row is observable by the
modelled operations). -/
def get_or_create_source_id (st : Store) (domain : String) : Nat × Store :=
  let d := pyLower domain
  match st.sources.find? (fun p => p.2 = d) with
  | some p => (p.1, st)
  | none =>
    (st.nextSourceId,
     { st with
        sources := st.sources ++ [(st.nextSourceId, d)]
        nextSourceId := st.nextSourceId + 1 })

/-- SQL `COALESCE` on two nullable values. -/
def coalesce (a b : Option α) : Option α :=
  match a with
  | some v => some v
  | none => b

/-- The `ON CONFLICT(id) DO UPDATE SET` clause of `Repository.upsert`
applied to the stored row `r`: per-field `COALESCE(excluded.x, articles.x)`
for title, content, summary, published_date, matched_tags, label,
label_score, cluster_id; `updated_at` is overwritten; everything else
(id, source_id, url, path_*, section, tags, author, created_at) is left
unchanged. -/
def upsertMerge (r : Row) (exTitle exContent exSummary exPublished exTags exLabel : Option String)
    (exScore exCluster : Option Int) (now : Int) : Row :=
  { r with
      title := coalesce exTitle r.title
      content := coalesce exContent r.content
      summary := coalesce exSummary r.summary
      published_date := coalesce exPublished r.published_date
      matched_tags := coalesce exTags r.matched_tags
      label := coalesce exLabel r.label
      label_score := coalesce exScore r.label_score
      cluster_id := coalesce exCluster r.cluster_id
      updated_at := now }

/-- Model of `Repository.upsert` (lines 300-353).  `now` stands for
`int(time.time())`.  `none` models an uncaught exception: a `ValueError`
from `urlparse` when `art.source` is falsy and the link cannot be parsed,
or an `IntegrityError` from the `UNIQUE(url)` constraint when the bound
url belongs to a row other than the conflict-target row. -/
def upsert (st : Store) (art : Article) (now : Int) : Option Store :=
  let srcOpt : Option String :=
    match art.source with
    | some s => if s = "" then none else some s
    | none => none
  let domOpt : Option String :=
    match srcOpt with
    | some s => some s
    | none => (urlparseChars art.link.data []).map (fun pr => String.mk pr.netloc)
  match domOpt with
  | none => none
  | some dom0 =>
    let idSt := get_or_create_source_id st (pyLower dom0)
    let sourceId := idSt.1
    let st1 := idSt.2
    let published : Option String :=
      match art.published with
      | some p => if p = "" then none else some p
      | none => none
    let matchedTags : Option String :=
      if art.matched_tags = [] then none else some (String.intercalate "," art.matched_tags)
    if st1.articles.any (fun r => r.id = art.id) then
      if st1.articles.any (fun r => r.id ≠ art.id ∧ r.url = art.link) then none
      else
        some { st1 with
          articles := st1.articles.map (fun r =>
            if r.id = art.id then
              upsertMerge r (some art.title) art.content none published matchedTags
                art.label art.label_score art.cluster_id now
            else r) }
    else
      if st1.articles.any (fun r => r.url = art.link) then none
      else
        some { st1 with
          articles := st1.articles ++
            [{ id := art.id
               source_id := sourceId
               url := art.link
               title := some art.title
               content := art.content
               summary := none
               published_date := published
               path_year := none
               path_month := none
               path_day := none
               sectionCol := none
               tags := none
               matched_tags := matchedTags
               author := none
               label := art.label
               label_score := art.label_score
               cluster_id := art.cluster_id
               created_at := art.ts.getD now
               updated_at := now }] }

/-- Model of `Repository.get_article_row_by_url` (lines 206-213). -/
def get_article_row_by_url (st : Store) (url : String) : Option Row :=
  st.articles.find? (fun r => r.url = url)

/-- Model of `Repository.row_to_article` (lines 215-232).  `none` models
the `ValueError` a malformed url would raise out of `urlparse`. -/
def row_to_article (r : Row) : Option Article :=
  let ml := ((splitOnChar ',' (r.matched_tags.getD "").data).map String.mk).filter
    (fun t => t ≠ "")
  let srcOpt : Option (Option String) :=
    if r.url = "" then some none
    else (urlparseChars r.url.data []).map (fun pr => some (String.mk pr.netloc))
  srcOpt.map (fun src =>
    { id := r.id
      title := r.title.getD ""
      link := r.url
      published := r.published_date
      source := src
      content := r.content
      matched_tags := ml
      ts := some r.updated_at
      label := r.label
      label_score := r.label_score
      cluster_id := r.cluster_id })

/-- Model of `Repository.update_article_content_by_url` (lines 234-252):
`COALESCE` title and content onto every row with the url, bump
`updated_at`. -/
def update_article_content_by_url (st : Store) (url : String)
    (title content : Option String) (now : Int) : Store :=
  { st with
      articles := st.articles.map (fun r =>
        if r.url = url then
          { r with
              title := coalesce title r.title
              content := coalesce content r.content
              updated_at := now }
        else r) }

/-- Model of `Repository.get_or_fetch_article` (lines 254-295).  The
content-fetch collaborator `read_article(url)` is passed in as the pair
`fetched = (title, body)` (both `str` per its signature); the returned
`Nat` counts how many times it was invoked.  `none` models an uncaught
exception (urlparse failure, upsert integrity error, or the `assert`). -/
def get_or_fetch_article (st : Store) (url : String) (fetched : String × String)
    (now : Int) : Option (Store × Article × Nat) :=
  match get_article_row_by_url st url with
  | some r =>
    if r.content.getD "" ≠ "" then
      (row_to_article r).map (fun a => (st, a, 0))
    else
      let st2 := update_article_content_by_url st url (some fetched.1) (some fetched.2) now
      match get_article_row_by_url st2 url with
      | none => none
      | some r2 => (row_to_article r2).map (fun a => (st2, a, 1))
  | none =>
    match urlparseChars url.data [] with
    | none => none
    | some pr =>
      let art : Article :=
        { id := sha256hex url
          title := fetched.1
          link := url
          published := none
          source := some (String.mk pr.netloc)
          content := some fetched.2
          matched_tags := []
          ts := some now
          label := none
          label_score := none
          cluster_id := none }
      match upsert st art now with
      | none => none
      | some st2 => some (st2, art, 1)

/-! ## Specification-side vocabulary for the canonicalizer claim -/

/-- Specification-side description of what the canonicalizer does to a
parsed path: an empty path becomes the root path, the root path is kept,
and any other path loses every trailing slash. -/
def canonPathSpec (p : String) : String :=
  let q := if p = "" then "/" else p
  if q = "/" then "/" else String.mk (pyRstripChar '/' q.data)

/-- Characters of a network location that interact with no parser
delimiter: not `/`, `?`, `#`, `[`, `]`, and not a removed unsafe byte. -/
def goodNetlocChar (c : Char) : Bool :=
  !(c = '/' || c = '?' || c = '#' || c = '[' || c = ']' || unsafeUrlChar c)

/-- Path characters that neither close the path nor start a parameter
section: not `?`, `#`, `;`, and not a removed unsafe byte. -/
def goodPathChar (c : Char) : Bool :=
  !(c = '?' || c = '#' || c = ';' || unsafeUrlChar c)

/-- Query characters: anything but `#` and the removed unsafe bytes. -/
def goodQueryChar (c : Char) : Bool :=
  !(c = '#' || unsafeUrlChar c)

/-- Fragment characters: anything but the removed unsafe bytes. -/
def goodFragChar (c : Char) : Bool :=
  !(unsafeUrlChar c)

/-! # Theorems -/

/-! ## C2: the window partition -/

/-- Exhaustive description of `daterangeGo` below the fuel bound: the
produced windows are contiguous, non-overlapping, start at `cur`, end at
`e`, have length `step` except possibly a shorter final one, and cover
`[cur, e)` exactly. -/
theorem daterangeGo_spec (step e : Int) (hstep : 0 < step)
    (hmax : e - 1 + step ≤ dateMaxOrdinal) :
    ∀ (fuel : Nat) (cur : Int), 1 ≤ cur → (e - cur).toNat ≤ fuel →
    ∃ ws, daterangeGo step e fuel cur = some ws ∧
      (e ≤ cur → ws = []) ∧
      List.Chain' (fun w w' : Int × Int => w.2 = w'.1) ws ∧
      (∀ w ∈ ws, cur ≤ w.1 ∧ w.1 < w.2 ∧ w.2 ≤ e ∧ w.2 - w.1 ≤ step ∧
        (w.2 - w.1 = step ∨ w.2 = e)) ∧
      (cur < e → ∃ w0 ∈ ws.head?, w0.1 = cur) ∧
      (cur < e → ∃ wn ∈ ws.getLast?, wn.2 = e) ∧
      (∀ x : Int, (∃ w ∈ ws, w.1 ≤ x ∧ x < w.2) ↔ (cur ≤ x ∧ x < e)) ∧
      List.Pairwise (fun w w' : Int × Int => w.2 ≤ w'.1) ws := by
  intro fuel
  induction fuel with
  | zero =>
    intro cur h1 hf
    have hec : e ≤ cur := by omega
    refine ⟨[], rfl, fun _ => rfl, List.chain'_nil, by simp, ?_, ?_, ?_, List.Pairwise.nil⟩
    · intro h; omega
    · intro h; omega
    · intro x
      constructor
      · rintro ⟨w, hw, -⟩; simp at hw
      · rintro ⟨hx1, hx2⟩; omega
  | succ fuel ih =>
    intro cur h1 hf
    by_cases hlt : cur < e
    · have hadd : pyDateAddDays cur step = some (cur + step) := by
        unfold pyDateAddDays
        rw [if_pos]
        exact ⟨by omega, by omega⟩
      obtain ⟨rest, hrest, hnil, hchain, hmem, hhead, hlast, hunion, hpw⟩ :=
        ih (min (cur + step) e) (by omega) (by omega)
      refine ⟨(cur, min (cur + step) e) :: rest, ?_, ?_, ?_, ?_, ?_, ?_, ?_, ?_⟩
      · rw [daterangeGo, if_pos hlt, hadd]
        simp only []
        rw [hrest]
      · intro h; omega
      · rw [List.chain'_cons']
        refine ⟨?_, hchain⟩
        intro y hy
        by_cases hme : min (cur + step) e < e
        · obtain ⟨w0, hw0, hw0c⟩ := hhead hme
          rw [Option.mem_def] at hy hw0
          rw [hy] at hw0
          injection hw0 with hw0
          rw [← hw0] at hw0c
          exact hw0c.symm
        · have hre : rest = [] := hnil (not_lt.mp hme)
          subst hre
          simp at hy
      · intro w hw
        rcases List.mem_cons.mp hw with rfl | hw
        · dsimp only
          exact ⟨le_refl _, by omega, by omega, by omega, by omega⟩
        · obtain ⟨ha, hb, hc, hd, he'⟩ := hmem w hw
          exact ⟨by omega, hb, hc, hd, he'⟩
      · intro _
        exact ⟨(cur, min (cur + step) e), rfl, rfl⟩
      · intro _
        by_cases hme : min (cur + step) e < e
        · obtain ⟨wn, hwn, hwnc⟩ := hlast hme
          exact ⟨wn, List.mem_getLast?_cons hwn, hwnc⟩
        · have hre : rest = [] := hnil (not_lt.mp hme)
          subst hre
          exact ⟨(cur, min (cur + step) e), rfl, le_antisymm (min_le_right _ _) (not_lt.mp hme)⟩
      · intro x
        constructor
        · rintro ⟨w, hw, hx1, hx2⟩
          rcases List.mem_cons.mp hw with rfl | hw
          · dsimp only at hx1 hx2; omega
          · obtain ⟨ha, -, hc, -, -⟩ := hmem w hw
            omega
        · rintro ⟨hx1, hx2⟩
          by_cases hxm : x < min (cur + step) e
          · exact ⟨(cur, min (cur + step) e), List.mem_cons_self _ _, hx1, hxm⟩
          · obtain ⟨w, hw, hw1, hw2⟩ := (hunion x).mpr ⟨by omega, hx2⟩
            exact ⟨w, List.mem_cons_of_mem _ hw, hw1, hw2⟩
      · refine List.Pairwise.cons ?_ hpw
        intro w hw
        exact (hmem w hw).1
    · refine ⟨[], ?_, fun _ => rfl, List.chain'_nil, by simp, ?_, ?_, ?_, List.Pairwise.nil⟩
      · rw [daterangeGo, if_neg hlt]
      · intro h; omega
      · intro h; omega
      · intro x
        constructor
        · rintro ⟨w, hw, -⟩; simp at hw
        · rintro ⟨hx1, hx2⟩; omega

/-- C2 (counterexample): as stated the claim fails — for
start = 9999-12-01, end = 9999-12-31 (ordinals 3652029, 3652059) and
window size 60, `daterange_batches` does not produce any window list:
`cur + timedelta(60)` raises `OverflowError` past `date.max`, although
the range is nonempty and the window size positive. -/
theorem daterange_batches_overflow_cex :
    daterange_batches 3652029 3652059 60 = none ∧
      (3652029 : Int) < 3652059 ∧ (0 : Int) < 60 := by
  refine ⟨?_, by decide, by decide⟩
  rfl

/-- C2 (amended): for valid date ordinals with a positive window size,
and provided no loop iteration overflows `date.max` (which
`end - 1 + step ≤ ordinal(date.max)` guarantees; the empty range never
iterates), `daterange_batches` returns windows that are contiguous,
non-overlapping, of length `step` except possibly a shorter last one,
starting at `start`, ending at `end`, whose union is exactly
`[start, end)`; the list is empty when `start ≥ end`. -/
theorem daterange_batches_partition (start e step : Int)
    (hstep : 0 < step) (hstart : 1 ≤ start)
    (hok : e - 1 + step ≤ dateMaxOrdinal ∨ e ≤ start) :
    ∃ ws, daterange_batches start e step = some ws ∧
      (e ≤ start → ws = []) ∧
      List.Chain' (fun w w' : Int × Int => w.2 = w'.1) ws ∧
      List.Pairwise (fun w w' : Int × Int => w.2 ≤ w'.1) ws ∧
      (∀ w ∈ ws, w.1 < w.2 ∧ w.2 - w.1 ≤ step ∧ (w.2 - w.1 = step ∨ w.2 = e)) ∧
      (start < e → ∃ w0 ∈ ws.head?, w0.1 = start) ∧
      (start < e → ∃ wn ∈ ws.getLast?, wn.2 = e) ∧
      (∀ x : Int, (∃ w ∈ ws, w.1 ≤ x ∧ x < w.2) ↔ (start ≤ x ∧ x < e)) := by
  rcases hok with hmax | hle
  · obtain ⟨ws, h1, h2, h3, h4, h5, h6, h7, h8⟩ :=
      daterangeGo_spec step e hstep hmax ((e - start).toNat) start hstart (le_refl _)
    refine ⟨ws, h1, h2, h3, h8, ?_, h5, h6, h7⟩
    intro w hw
    obtain ⟨-, hb, -, hd, he'⟩ := h4 w hw
    exact ⟨hb, hd, he'⟩
  · have hz : (e - start).toNat = 0 := by omega
    refine ⟨[], ?_, fun _ => rfl, List.chain'_nil, List.Pairwise.nil, by simp, ?_, ?_, ?_⟩
    · unfold daterange_batches
      rw [hz]
      rfl
    · intro h; omega
    · intro h; omega
    · intro x
      constructor
      · rintro ⟨w, hw, -⟩; simp at hw
      · rintro ⟨hx1, hx2⟩; omega

/-- C2 witness: the partition theorem applied at the concrete range
ordinals 100, 190 with 30-day windows. -/
theorem daterange_batches_partition_witness :
    ∃ ws, daterange_batches 100 190 30 = some ws ∧
      (∀ x : Int, (∃ w ∈ ws, w.1 ≤ x ∧ x < w.2) ↔ (100 ≤ x ∧ x < 190)) := by
  obtain ⟨ws, h1, -, -, -, -, -, -, h8⟩ :=
    daterange_batches_partition 100 190 30 (by decide) (by decide) (Or.inl (by decide))
  exact ⟨ws, h1, h8⟩

/-! ## C3: resume skip -/

/-- C3: for every window `w` of a run, if a prior report for `w` exists
and parses with `success = true`, resume mode is requested, and force
rerun is not, the orchestrator loop emits no effect for `w` at all: no
meta crawl, no content fill, no copy, and no report write. -/
theorem resume_skip_no_effects (resume force : Bool)
    (reports : Window → Option (Option Bool)) (integrity : Window → Bool × Bool)
    (ws : List Window) (w : Window)
    (hrep : reports w = some (some true)) (hres : resume = true) (hforce : force = false) :
    ∀ eff ∈ run_batches resume force reports integrity ws, effectWindow eff ≠ w := by
  subst hres hforce
  induction ws with
  | nil =>
    intro eff heff
    simp [run_batches] at heff
  | cons w' rest ih =>
    intro eff heff
    rw [run_batches] at heff
    rcases List.mem_append.mp heff with h | h
    · by_cases hww : w' = w
      · subst hww
        rw [window_effects, hrep] at h
        simp [skip_window] at h
      · by_cases hsk : skip_window true false (reports w') = true
        · simp [window_effects, hsk] at h
        · simp [window_effects, hsk] at h
          rcases h with rfl | rfl | rfl | ⟨b, rfl⟩ <;> simpa [effectWindow] using hww
    · exact ih eff h

/-- C3 witness: a two-window run where the first window has a successful
prior report; applying the skip theorem to the concrete crawl effect of
the second window. -/
theorem resume_skip_no_effects_witness :
    effectWindow (BatchEffect.crawlMeta ((30 : Int), (60 : Int))) ≠ ((0 : Int), (30 : Int)) :=
  resume_skip_no_effects true false
    (fun w => if w = ((0 : Int), (30 : Int)) then some (some true) else none)
    (fun _ => (true, true))
    [((0 : Int), (30 : Int)), ((30 : Int), (60 : Int))] ((0 : Int), (30 : Int))
    (by simp) rfl rfl (BatchEffect.crawlMeta ((30 : Int), (60 : Int))) (by decide)

/-! ## C6: the canonicalizer is not a projection -/

/-- C6: the code violates the idempotence contract.  On
`"https://example.com//"` the canonicalizer returns
`"https://example.com"` (the all-slash path is stripped to the empty
path), and a second application returns `"https://example.com/"` (the
empty path is promoted to `"/"`), so
`canonicalize(canonicalize(x)) ≠ canonicalize(x)`.  The claim's example
equality `canonicalize("HTTP://Example.com/a/") =
canonicalize("https://example.com/a")` does hold. -/
theorem canonicalize_not_idempotent_cex :
    canonicalize_url true "https://example.com//" = "https://example.com" ∧
    canonicalize_url true (canonicalize_url true "https://example.com//") =
      "https://example.com/" ∧
    canonicalize_url true (canonicalize_url true "https://example.com//") ≠
      canonicalize_url true "https://example.com//" ∧
    canonicalize_url true "HTTP://Example.com/a/" =
      canonicalize_url true "https://example.com/a" := by
  refine ⟨rfl, rfl, ?_, rfl⟩
  decide

/-! ## C7: what the canonicalizer changes -/

/-- C7 (counterexample): the canonicalizer does not strip a single
trailing slash — `path.rstrip("/")` strips them all:
`"https://example.com/a//"` maps to `"https://example.com/a"`, not to
`"https://example.com/a/"` as the claim requires. -/
theorem canonicalize_single_slash_cex :
    canonicalize_url true "https://example.com/a//" = "https://example.com/a" ∧
    canonicalize_url true "https://example.com/a//" ≠ "https://example.com/a/" := by
  refine ⟨rfl, ?_⟩
  decide

/-! ## C1: the upsert merge -/

/-- The source-id lookup never touches the articles table. -/
theorem get_or_create_source_id_articles (st : Store) (d : String) :
    (get_or_create_source_id st d).2.articles = st.articles := by
  simp only [get_or_create_source_id]
  split <;> rfl

/-- C1 (counterexample): upserting an article whose title and content
are the empty string does overwrite a populated stored title and
content — SQL `COALESCE` treats only NULL as missing, and the bound
title/content parameters are `''`, not NULL. -/
theorem upsert_empty_string_overwrites_cex :
    (upsert
      ⟨[(1, "x.hu")], 2,
        [{ id := "a", source_id := 1, url := "https://x.hu/a",
           title := some "Title", content := some "Body", summary := none,
           published_date := some "2024-01-01", path_year := none,
           path_month := none, path_day := none, sectionCol := none,
           tags := none, matched_tags := none, author := none, label := none,
           label_score := none, cluster_id := none, created_at := 0,
           updated_at := 0 }]⟩
      { id := "a", title := "", link := "https://x.hu/a",
        published := none, source := some "x.hu", content := some "",
        matched_tags := [], ts := none, label := none, label_score := none,
        cluster_id := none }
      5).map (fun st => st.articles.map (fun r => (r.title, r.content))) =
      some [(some "", some "")] := by
  rfl

/-- C1 (amended): when the incoming article's id already exists in the
store (and its url does not collide with a different row), `upsert`
merges per field with SQL `COALESCE(excluded.x, stored.x)` over the bound
parameters: a NULL incoming field keeps the stored value and a non-NULL
incoming field replaces it, where `published` and `matched_tags` are
normalized to NULL when empty before binding, but `title` (always a
`str`) and an empty-string `content` are non-NULL and therefore replace
the stored values.  url, created_at and summary are never changed by a
merge; updated_at is set to now. -/
theorem upsert_merge_first_nonnull (st : Store) (art : Article) (now : Int) (r0 : Row)
    (hmem : r0 ∈ st.articles) (hid : r0.id = art.id)
    (hurl : ∀ r ∈ st.articles, r.url = art.link → r.id = art.id)
    (s : String) (hs : art.source = some s) (hsne : s ≠ "") :
    ∃ st', upsert st art now = some st' ∧
      ∃ r' ∈ st'.articles,
        r'.id = art.id ∧
        r'.title = some art.title ∧
        r'.content = (match art.content with
          | some c => some c
          | none => r0.content) ∧
        r'.summary = r0.summary ∧
        r'.published_date = (match art.published with
          | some p => if p = "" then r0.published_date else some p
          | none => r0.published_date) ∧
        r'.matched_tags = (if art.matched_tags = [] then r0.matched_tags
          else some (String.intercalate "," art.matched_tags)) ∧
        r'.label = (match art.label with
          | some l => some l
          | none => r0.label) ∧
        r'.label_score = (match art.label_score with
          | some v => some v
          | none => r0.label_score) ∧
        r'.cluster_id = (match art.cluster_id with
          | some c => some c
          | none => r0.cluster_id) ∧
        r'.url = r0.url ∧ r'.created_at = r0.created_at ∧ r'.updated_at = now := by
  unfold upsert
  rw [hs]
  simp only [if_neg hsne]
  set st1 := (get_or_create_source_id st (pyLower s)).2 with hst1
  have hart : st1.articles = st.articles := get_or_create_source_id_articles st (pyLower s)
  have hex : st1.articles.any (fun r => r.id = art.id) = true := by
    rw [hart]
    exact List.any_eq_true.mpr ⟨r0, hmem, by simp [hid]⟩
  have hnc : st1.articles.any (fun r => decide (r.id ≠ art.id ∧ r.url = art.link)) = false := by
    rw [hart]
    rw [List.any_eq_false]
    intro r hr
    simp only [decide_eq_true_eq, not_and]
    intro hne hrurl
    exact hne (hurl r hr hrurl)
  rw [if_pos hex]
  rw [if_neg (by rw [hnc]; exact Bool.false_ne_true)]
  refine ⟨_, rfl, ?_⟩
  refine ⟨upsertMerge r0 (some art.title) art.content none
    (match art.published with
      | some p => if p = "" then none else some p
      | none => none)
    (if art.matched_tags = [] then none else some (String.intercalate "," art.matched_tags))
    art.label art.label_score art.cluster_id now, ?_, ?_⟩
  · simp only []
    rw [hart]
    have := List.mem_map_of_mem (fun r =>
      if r.id = art.id then
        upsertMerge r (some art.title) art.content none
          (match art.published with
            | some p => if p = "" then none else some p
            | none => none)
          (if art.matched_tags = [] then none
            else some (String.intercalate "," art.matched_tags))
          art.label art.label_score art.cluster_id now
      else r) hmem
    dsimp only at this
    rw [if_pos hid] at this
    exact this
  · refine ⟨?_, rfl, ?_, rfl, ?_, ?_, ?_, ?_, ?_, rfl, rfl, rfl⟩
    · simp [upsertMerge, hid]
    · cases art.content <;> rfl
    · simp only [upsertMerge]
      cases art.published with
      | none => rfl
      | some p =>
        by_cases hp : p = ""
        · simp [hp, coalesce]
        · simp [hp, coalesce]
    · simp only [upsertMerge]
      by_cases hmt : art.matched_tags = []
      · simp [hmt, coalesce]
      · simp [hmt, coalesce]
    · cases art.label <;> rfl
    · cases art.label_score <;> rfl
    · cases art.cluster_id <;> rfl

/-- C1 witness: the merge theorem at a concrete store and article with a
NULL content (the stored body survives) and a fresh label. -/
theorem upsert_merge_first_nonnull_witness :
    ∃ st', upsert
      ⟨[(1, "x.hu")], 2,
        [{ id := "a", source_id := 1, url := "https://x.hu/a",
           title := some "T0", content := some "Body", summary := none,
           published_date := none, path_year := none, path_month := none,
           path_day := none, sectionCol := none, tags := none,
           matched_tags := none, author := none, label := none,
           label_score := none, cluster_id := none, created_at := 0,
           updated_at := 0 }]⟩
      { id := "a", title := "T1", link := "https://x.hu/a",
        published := some "", source := some "x.hu", content := none,
        matched_tags := [], ts := none, label := some "L", label_score := none,
        cluster_id := none }
      7 = some st' ∧
      ∃ r' ∈ st'.articles, r'.id = "a" ∧ r'.title = some "T1" ∧
        r'.content = some "Body" ∧ r'.published_date = none ∧
        r'.label = some "L" ∧ r'.updated_at = 7 := by
  obtain ⟨st', h1, r', hr', hid, htitle, hcontent, -, hpub, -, hlabel, -, -, -, -, hupd⟩ :=
    upsert_merge_first_nonnull
      ⟨[(1, "x.hu")], 2,
        [{ id := "a", source_id := 1, url := "https://x.hu/a",
           title := some "T0", content := some "Body", summary := none,
           published_date := none, path_year := none, path_month := none,
           path_day := none, sectionCol := none, tags := none,
           matched_tags := none, author := none, label := none,
           label_score := none, cluster_id := none, created_at := 0,
           updated_at := 0 }]⟩
      { id := "a", title := "T1", link := "https://x.hu/a",
        published := some "", source := some "x.hu", content := none,
        matched_tags := [], ts := none, label := some "L", label_score := none,
        cluster_id := none }
      7
      { id := "a", source_id := 1, url := "https://x.hu/a",
        title := some "T0", content := some "Body", summary := none,
        published_date := none, path_year := none, path_month := none,
        path_day := none, sectionCol := none, tags := none,
        matched_tags := none, author := none, label := none,
        label_score := none, cluster_id := none, created_at := 0,
        updated_at := 0 }
      (by simp) rfl (by intro r hr hu; simp at hr; rw [hr]) "x.hu" rfl (by decide)
  exact ⟨st', h1, r', hr', hid, htitle, hcontent, hpub, hlabel, hupd⟩

/-! ## C10: content fill is a no-op on records with a body -/

/-- C10: when the stored record for a URL already has a non-empty body,
`get_or_fetch_article` performs no fetch (the counter is 0) and no store
mutation (the store comes back unchanged), returning the existing record;
consequently a second call — with any fetch collaborator result and at
any time — returns exactly the same thing, so content fill is idempotent
and retry-safe. -/
theorem get_or_fetch_article_no_refetch (st : Store) (url : String)
    (fetched : String × String) (now : Int) (r : Row) (a : Article)
    (hrow : get_article_row_by_url st url = some r)
    (hc : r.content.getD "" ≠ "")
    (ha : row_to_article r = some a) :
    get_or_fetch_article st url fetched now = some (st, a, 0) ∧
    ∀ fetched2 now2, get_or_fetch_article st url fetched2 now2 = some (st, a, 0) := by
  have key : ∀ (f : String × String) (n : Int),
      get_or_fetch_article st url f n = some (st, a, 0) := by
    intro f n
    unfold get_or_fetch_article
    rw [hrow]
    dsimp only
    rw [if_pos hc, ha]
    rfl
  exact ⟨key fetched now, fun f2 n2 => key f2 n2⟩

/-- C10 witness: the no-refetch theorem at a concrete store whose only
row already has the body `"Body"`. -/
theorem get_or_fetch_article_no_refetch_witness :
    get_or_fetch_article
      ⟨[(1, "x.hu")], 2,
        [{ id := "a", source_id := 1, url := "https://x.hu/a",
           title := some "T0", content := some "Body", summary := none,
           published_date := none, path_year := none, path_month := none,
           path_day := none, sectionCol := none, tags := none,
           matched_tags := none, author := none, label := none,
           label_score := none, cluster_id := none, created_at := 0,
           updated_at := 3 }]⟩
      "https://x.hu/a" ("T1", "NewBody") 99 =
      some
        (⟨[(1, "x.hu")], 2,
          [{ id := "a", source_id := 1, url := "https://x.hu/a",
             title := some "T0", content := some "Body", summary := none,
             published_date := none, path_year := none, path_month := none,
             path_day := none, sectionCol := none, tags := none,
             matched_tags := none, author := none, label := none,
             label_score := none, cluster_id := none, created_at := 0,
             updated_at := 3 }]⟩,
         { id := "a", title := "T0", link := "https://x.hu/a",
           published := none, source := some "x.hu", content := some "Body",
           matched_tags := [], ts := some 3, label := none,
           label_score := none, cluster_id := none },
         0) := by
  exact (get_or_fetch_article_no_refetch _ "https://x.hu/a" ("T1", "NewBody") 99
    { id := "a", source_id := 1, url := "https://x.hu/a",
      title := some "T0", content := some "Body", summary := none,
      published_date := none, path_year := none, path_month := none,
      path_day := none, sectionCol := none, tags := none,
      matched_tags := none, author := none, label := none,
      label_score := none, cluster_id := none, created_at := 0,
      updated_at := 3 }
    { id := "a", title := "T0", link := "https://x.hu/a",
      published := none, source := some "x.hu", content := some "Body",
      matched_tags := [], ts := some 3, label := none, label_score := none,
      cluster_id := none }
    (by rfl) (by decide) (by decide)).1

/-! ## C8: date guesses in extraction -/

/-- C8 (counterexample): the MVP extractor attaches a present
`date_guess` without calendar validation: a match capturing year 2024,
month 13, day 40 produces `date_guess = "2024-13-40"`, which is not a
calendar-valid date (the downstream range filter later rejects it).  The
whole extractor output carries the invalid guess. -/
theorem adapter_extract_invalid_date_cex :
    adapter_pub ⟨"https://x.hu/2024/13/40/x", [some "2024", some "13", some "40"]⟩ 1 =
      some "2024-13-40" ∧
    adapter_extract true "https://x.hu"
      [⟨"https://x.hu/2024/13/40/x", [some "2024", some "13", some "40"]⟩] [] =
      some [("https://x.hu/2024/13/40/x", some "2024-13-40")] ∧
    dateValid 2024 13 40 = false ∧
    parse_pub_date "2024-13-40" = none := by
  exact ⟨rfl, rfl, by decide, rfl⟩

/-- C8 (amended): in `RegexArchiveAdapter._extract` a returned
`date_guess` is present exactly when all three capture groups parse as
integers — no calendar validation, the value being the zero-padded
rendering; in the hvg extractor (`extract_article_links`) a present date
additionally requires calendar validity, and every present date is a
constructed (valid) `date`.  In both, failure is the absent value, never
a raised exception (the model is a total function). -/
theorem date_guess_characterization (m : PyMatch) (g : Nat) :
    ((adapter_pub m g).isSome ↔
      ∃ y mo d : Int, groupInt m g = some y ∧ groupInt m (g + 1) = some mo ∧
        groupInt m (g + 2) = some d) ∧
    (∀ y mo d : Int, groupInt m g = some y → groupInt m (g + 1) = some mo →
      groupInt m (g + 2) = some d →
      adapter_pub m g = some (padInt 4 y ++ "-" ++ padInt 2 mo ++ "-" ++ padInt 2 d)) ∧
    (∀ dt : PyDate, hvg_date m = some dt → dateValid dt.year dt.month dt.day = true) ∧
    ((hvg_date m).isSome ↔
      ∃ y mo d : Int, groupInt m 1 = some y ∧ groupInt m 2 = some mo ∧
        groupInt m 3 = some d ∧ dateValid y mo d = true) := by
  refine ⟨?_, ?_, ?_, ?_⟩
  · unfold adapter_pub
    cases hy : groupInt m g <;> cases hmo : groupInt m (g + 1) <;>
      cases hd : groupInt m (g + 2) <;> simp
  · intro y mo d hy hmo hd
    unfold adapter_pub
    rw [hy, hmo, hd]
  · intro dt hdt
    unfold hvg_date at hdt
    rcases hy : groupInt m 1 with - | y <;> rw [hy] at hdt
    · exact absurd hdt (by simp)
    rcases hmo : groupInt m 2 with - | mo <;> rw [hmo] at hdt
    · exact absurd hdt (by simp)
    rcases hd : groupInt m 3 with - | d <;> rw [hd] at hdt
    · exact absurd hdt (by simp)
    dsimp only at hdt
    unfold mkDate at hdt
    by_cases hv : dateValid y mo d = true
    · rw [if_pos hv] at hdt
      injection hdt with hdt
      rw [← hdt]
      exact hv
    · rw [if_neg hv] at hdt
      exact absurd hdt (by simp)
  · unfold hvg_date
    rcases hy : groupInt m 1 with - | y <;>
      rcases hmo : groupInt m 2 with - | mo <;>
      rcases hd : groupInt m 3 with - | d <;> simp [mkDate]

/-- C8 witness: the characterization applied to a concrete match with
groups `2024`, `5`, `6`. -/
theorem date_guess_characterization_witness :
    adapter_pub ⟨"u", [some "2024", some "5", some "6"]⟩ 1 = some "2024-05-06" ∧
    dateValid 2024 5 6 = true := by
  have h := date_guess_characterization ⟨"u", [some "2024", some "5", some "6"]⟩ 1
  exact ⟨h.2.1 2024 5 6 (by decide) (by decide) (by decide),
    h.2.2.1 ⟨2024, 5, 6⟩ (by decide)⟩

/-! ## C9: extraction dedup and order -/

/-- The imperative seen-set dedup equals the declarative
"keep the first occurrence of each key" dedup, relative to a seen set. -/
theorem dedupBy_eq_firstDedupBy {α : Type} (key : α → String) :
    ∀ (l : List α) (seen : List String),
      dedupBy key seen l = firstDedupBy key (l.filter (fun a => !(seen.contains (key a)))) := by
  intro l
  induction l with
  | nil => intro seen; simp [dedupBy, firstDedupBy]
  | cons a rest ih =>
    intro seen
    by_cases h : seen.contains (key a) = true
    · have hpa : (!seen.contains (key a)) = false := by rw [h]; rfl
      rw [dedupBy, if_pos h, ih seen, List.filter_cons,
        if_neg (by rw [hpa]; exact Bool.false_ne_true)]
    · have hb : (!seen.contains (key a)) = true := by
        simp only [Bool.not_eq_true] at h
        rw [h]; rfl
      have hfilter : ∀ (l2 : List α),
          l2.filter (fun b => !(key a :: seen).contains (key b)) =
          (l2.filter (fun b => !seen.contains (key b))).filter
            (fun b => key b ≠ key a) := by
        intro l2
        rw [List.filter_filter]
        apply List.filter_congr
        intro b hb2
        simp [List.contains_cons, Bool.not_or, Bool.and_comm, eq_comm]
      rw [dedupBy, if_neg h, ih (key a :: seen), hfilter rest, List.filter_cons, if_pos hb]
      simp only [firstDedupBy]

/-- The seen-set dedup produces pairwise-distinct keys avoiding the seen
set, and its output is a sublist (order-preserving selection) of its
input. -/
theorem dedupBy_nodup_sublist {α : Type} (key : α → String) :
    ∀ (l : List α) (seen : List String),
      ((dedupBy key seen l).map key).Nodup ∧
      (∀ a ∈ dedupBy key seen l, seen.contains (key a) = false) ∧
      (dedupBy key seen l).Sublist l := by
  intro l
  induction l with
  | nil =>
    intro seen
    exact ⟨List.nodup_nil, by intro a ha; simp [dedupBy] at ha, List.Sublist.refl _⟩
  | cons a rest ih =>
    intro seen
    by_cases h : seen.contains (key a) = true
    · rw [dedupBy, if_pos h]
      obtain ⟨h1, h2, h3⟩ := ih seen
      exact ⟨h1, h2, h3.cons a⟩
    · rw [dedupBy, if_neg h]
      obtain ⟨h1, h2, h3⟩ := ih (key a :: seen)
      refine ⟨?_, ?_, h3.cons₂ a⟩
      · rw [List.map_cons, List.nodup_cons]
        refine ⟨?_, h1⟩
        intro hmem
        obtain ⟨b, hb, hkb⟩ := List.mem_map.mp hmem
        have hcontra := h2 b hb
        rw [List.contains_cons] at hcontra
        simp [hkb] at hcontra
      · intro b hb
        rcases List.mem_cons.mp hb with rfl | hb
        · simp only [Bool.not_eq_true] at h
          exact h
        · have hcontra := h2 b hb
          rw [List.contains_cons] at hcontra
          simp only [Bool.or_eq_false_iff] at hcontra
          exact hcontra.2

/-- C9: both extractors return each canonical URL at most once, keep
first-seen order, and resolve absolute matches directly and relative
matches against the base URL.  Concretely: the output is exactly the
first-occurrence dedup (by canonical URL) of the in-order candidate list
"canonicalized absolute matches followed by base-resolved relative
matches", hence an order-preserving sublist with pairwise-distinct
canonical URLs. -/
theorem extract_dedup_first_seen :
    (∀ (force : Bool) (base : String) (absMs relMs : List PyMatch)
        (out : List (String × Option String)),
      adapter_extract force base absMs relMs = some out →
      ∃ relPairs,
        relMs.mapM (fun m => (adapter_rel_url force base m).map
          (fun u => (u, adapter_pub m 2))) = some relPairs ∧
        out = firstDedupBy Prod.fst
          (absMs.map (fun m => (canonicalize_url force m.group0, adapter_pub m 1)) ++ relPairs) ∧
        (out.map Prod.fst).Nodup ∧
        out.Sublist
          (absMs.map (fun m => (canonicalize_url force m.group0, adapter_pub m 1)) ++ relPairs)) ∧
    (∀ (force : Bool) (base : String) (absMs relMs : List PyMatch)
        (out : List FoundUrl),
      extract_article_links force base absMs relMs = some out →
      out = firstDedupBy FoundUrl.url
        (absMs.map (fun m => (⟨canonicalize_url force m.group0, hvg_date m⟩ : FoundUrl)) ++
          (relMs.filterMap (hvg_rel_entry force base)).reduceOption) ∧
      (out.map FoundUrl.url).Nodup ∧
      out.Sublist
        (absMs.map (fun m => (⟨canonicalize_url force m.group0, hvg_date m⟩ : FoundUrl)) ++
          (relMs.filterMap (hvg_rel_entry force base)).reduceOption)) := by
  constructor
  · intro force base absMs relMs out hout
    unfold adapter_extract at hout
    rcases hmm : relMs.mapM (fun m => (adapter_rel_url force base m).map
        (fun u => (u, adapter_pub m 2))) with - | relPairs
    · rw [hmm] at hout; exact absurd hout (by simp)
    · rw [hmm] at hout
      injection hout with hout
      refine ⟨relPairs, rfl, ?_, ?_, ?_⟩
      · rw [← hout, dedupBy_eq_firstDedupBy]
        congr 1
        simp
      · rw [← hout]
        exact (dedupBy_nodup_sublist Prod.fst _ _).1
      · rw [← hout]
        exact (dedupBy_nodup_sublist Prod.fst _ _).2.2
  · intro force base absMs relMs out hout
    unfold extract_article_links at hout
    by_cases hcn : (relMs.filterMap (hvg_rel_entry force base)).contains none = true
    · rw [if_pos hcn] at hout
      exact absurd hout (by simp)
    · rw [if_neg hcn] at hout
      injection hout with hout
      refine ⟨?_, ?_, ?_⟩
      · rw [← hout, dedupBy_eq_firstDedupBy]
        congr 1
        simp
      · rw [← hout]
        exact (dedupBy_nodup_sublist FoundUrl.url _ _).1
      · rw [← hout]
        exact (dedupBy_nodup_sublist FoundUrl.url _ _).2.2

/-- C9 witness: two absolute matches for the same canonical URL collapse
to one entry. -/
theorem extract_dedup_first_seen_witness :
    ([(("https://x.hu/2024/01/02/a" : String), (some "2024-01-02" : Option String))].map
      Prod.fst).Nodup := by
  obtain ⟨rp, -, -, hnd, -⟩ := extract_dedup_first_seen.1 true "https://x.hu"
    [⟨"https://x.hu/2024/01/02/a", [some "2024", some "1", some "2"]⟩,
     ⟨"https://x.hu/2024/01/02/a", [some "2024", some "1", some "2"]⟩] []
    [("https://x.hu/2024/01/02/a", some "2024-01-02")] (by rfl)
  exact hnd

/-! ## C5: acceptance criterion of the range filters -/

/-- Python date comparison is a total order: not-less-than is
greater-or-equal. -/
theorem date_not_lt (a b : PyDate) : (¬ dateLt a b = true) ↔ dateLe b a = true := by
  rcases a with ⟨a1, a2, a3⟩
  rcases b with ⟨b1, b2, b3⟩
  simp [dateLt, dateLe, PyDate.mk.injEq]
  omega

/-- Python date comparison is a total order: not-greater-or-equal is
less-than. -/
theorem date_not_le (a b : PyDate) : (¬ dateLe a b = true) ↔ dateLt b a = true := by
  rcases a with ⟨a1, a2, a3⟩
  rcases b with ⟨b1, b2, b3⟩
  simp [dateLt, dateLe, PyDate.mk.injEq]
  omega

/-- The adapter's `_within_range` with both bounds accepts exactly the
entries whose date guess is present, parses as a calendar-valid date,
and lies in `[df, dt)`. -/
theorem adapter_within_range_iff (pub : Option String) (df dt : PyDate) :
    adapter_within_range pub (some df) (some dt) = true ↔
      ∃ s d, pub = some s ∧ parse_pub_date s = some d ∧
        dateLe df d = true ∧ dateLt d dt = true := by
  cases pub with
  | none => simp [adapter_within_range]
  | some s =>
    cases hp : parse_pub_date s with
    | none => simp [adapter_within_range, hp]
    | some d =>
      by_cases h1 : dateLt d df = true
      · have hval : adapter_within_range (some s) (some df) (some dt) = false := by
          simp [adapter_within_range, hp, Option.any, h1]
        rw [hval]
        constructor
        · intro h
          exact absurd h (by simp)
        · rintro ⟨s', d', hs, hpd, hle, -⟩
          exfalso
          injection hs with hs
          subst hs
          rw [hp] at hpd
          injection hpd with hpd
          subst hpd
          exact (date_not_lt d df).mpr hle h1
      · by_cases h2 : dateLe dt d = true
        · have hval : adapter_within_range (some s) (some df) (some dt) = false := by
            simp [adapter_within_range, hp, Option.any, h1, h2]
          rw [hval]
          constructor
          · intro h
            exact absurd h (by simp)
          · rintro ⟨s', d', hs, hpd, -, hlt⟩
            exfalso
            injection hs with hs
            subst hs
            rw [hp] at hpd
            injection hpd with hpd
            subst hpd
            exact (date_not_lt d dt).mpr h2 hlt
        · have hval : adapter_within_range (some s) (some df) (some dt) = true := by
            simp [adapter_within_range, hp, Option.any, h1, h2]
          rw [hval]
          simp only [true_iff]
          exact ⟨s, d, rfl, hp, (date_not_lt d df).mp h1, (date_not_le dt d).mp h2⟩

/-- Every article produced by `_yield_matches` passed the range filter. -/
theorem yield_matches_sound (domain : String) (now : Int) (start endExcl : Option PyDate) :
    ∀ (ms : List (String × Option String)) (seen : List String),
      ∀ art ∈ (yield_matches domain now start endExcl seen ms).1,
        adapter_within_range art.published start endExcl = true := by
  intro ms
  induction ms with
  | nil =>
    intro seen art ha
    simp [yield_matches] at ha
  | cons p rest ih =>
    intro seen art ha
    rcases p with ⟨url, pub⟩
    rw [yield_matches] at ha
    by_cases h1 : seen.contains url = true
    · rw [if_pos h1] at ha
      exact ih seen art ha
    · rw [if_neg h1] at ha
      by_cases h2 : adapter_within_range pub start endExcl = true
      · rw [if_neg (not_not_intro h2)] at ha
        dsimp only at ha
        rcases List.mem_cons.mp ha with rfl | ha
        · exact h2
        · exact ih (url :: seen) art ha
      · rw [if_pos h2] at ha
        exact ih seen art ha

/-- Soundness of the archivum pagination loop: it only accumulates
range-approved articles. -/
theorem listingGo_sound (fetch : Nat → Option (List (String × Option String)))
    (domain : String) (now : Int) (start endExcl : Option PyDate) :
    ∀ (fuel pageI : Nat) (s : ListingState),
      (∀ art ∈ s.out, adapter_within_range art.published start endExcl = true) →
      ∀ art ∈ (listingGo fetch domain now start endExcl fuel pageI s).out,
        adapter_within_range art.published start endExcl = true := by
  intro fuel
  induction fuel with
  | zero =>
    intro pageI s hs art ha
    rw [listingGo] at ha
    exact hs art ha
  | succ fuel ih =>
    intro pageI s hs art ha
    rw [listingGo] at ha
    cases hf : fetch pageI with
    | none =>
      rw [hf] at ha
      dsimp only at ha
      exact ih (pageI + 1) { out := s.out, seen := s.seen, fetched := s.fetched + 1 } hs art ha
    | some ms =>
      rw [hf] at ha
      dsimp only at ha
      split at ha
      · exact hs art ha
      · refine ih (pageI + 1) _ ?_ art ha
        intro b hb
        dsimp only at hb
        rcases List.mem_append.mp hb with hb | hb
        · exact hs b hb
        · exact yield_matches_sound domain now start endExcl ms _ b hb

/-- C5: with bounds `[df, dt)` supplied, (i) a link considered by the
adapter's `_yield_matches` (canonical URL not yet seen) is accepted iff
its date guess is present, parses, and lies in `[df, dt)` — the adapter
has no "allow missing date" option, so an absent guess is rejected;
(ii) the hvg `within_range` accepts exactly "absent ∧ allow_missing, or
present and in `[df, dt)`"; (iii) consequently every article yielded by
the listing traversal `iter_archive` carries an in-window date guess. -/
theorem accept_iff_in_window (df dt : PyDate) :
    (∀ (domain : String) (now : Int) (seen : List String) (url : String)
        (pub : Option String),
      seen.contains url = false →
      ((yield_matches domain now (some df) (some dt) seen [(url, pub)]).1 ≠ [] ↔
        ∃ s d, pub = some s ∧ parse_pub_date s = some d ∧
          dateLe df d = true ∧ dateLt d dt = true)) ∧
    (∀ (d : Option PyDate) (allowMissing : Bool),
      within_range d (some df) (some dt) allowMissing = true ↔
        ((d = none ∧ allowMissing = true) ∨
          ∃ dd, d = some dd ∧ dateLe df dd = true ∧ dateLt dd dt = true)) ∧
    (∀ (fetch : Nat → Option (List (String × Option String))) (domain : String)
        (now : Int) (maxPages : Nat),
      ∀ art ∈ (iter_archive_listing fetch domain now (some df) (some dt) maxPages).out,
        ∃ s d, art.published = some s ∧ parse_pub_date s = some d ∧
          dateLe df d = true ∧ dateLt d dt = true) := by
  refine ⟨?_, ?_, ?_⟩
  · intro domain now seen url pub hseen
    rw [yield_matches, if_neg (by rw [hseen]; exact Bool.false_ne_true)]
    by_cases h2 : adapter_within_range pub (some df) (some dt) = true
    · rw [if_neg (not_not_intro h2)]
      dsimp only
      simp only [ne_eq, reduceCtorEq, not_false_eq_true, true_iff]
      exact (adapter_within_range_iff pub df dt).mp h2
    · rw [if_pos h2]
      rw [yield_matches]
      simp only [ne_eq, not_true_eq_false, false_iff]
      intro hw
      exact h2 ((adapter_within_range_iff pub df dt).mpr hw)
  · intro d allowMissing
    cases d with
    | none => simp [within_range]
    | some dd =>
      by_cases h1 : dateLt dd df = true
      · have hval : within_range (some dd) (some df) (some dt) allowMissing = false := by
          simp [within_range, Option.any, h1]
        rw [hval]
        constructor
        · intro h
          exact absurd h (by simp)
        · rintro (⟨h, -⟩ | ⟨dd', hdd, hle, -⟩)
          · exact absurd h (by simp)
          · exfalso
            injection hdd with hdd
            subst hdd
            exact (date_not_lt dd df).mpr hle h1
      · by_cases h2 : dateLe dt dd = true
        · have hval : within_range (some dd) (some df) (some dt) allowMissing = false := by
            simp [within_range, Option.any, h1, h2]
          rw [hval]
          constructor
          · intro h
            exact absurd h (by simp)
          · rintro (⟨h, -⟩ | ⟨dd', hdd, -, hlt⟩)
            · exact absurd h (by simp)
            · exfalso
              injection hdd with hdd
              subst hdd
              exact (date_not_lt dd dt).mpr h2 hlt
        · have hval : within_range (some dd) (some df) (some dt) allowMissing = true := by
            simp [within_range, Option.any, h1, h2]
          rw [hval]
          simp only [true_iff]
          exact Or.inr ⟨dd, rfl, (date_not_lt dd df).mp h1, (date_not_le dt dd).mp h2⟩
  · intro fetch domain now maxPages art ha
    have h := listingGo_sound fetch domain now (some df) (some dt) maxPages 1
      ⟨[], [], 0⟩ (by intro b hb; simp at hb) art ha
    exact (adapter_within_range_iff art.published df dt).mp h

/-- C5 witness: a not-yet-seen link dated 2024-01-15 is accepted for the
window 2024-01-01 .. 2024-02-01. -/
theorem accept_iff_in_window_witness :
    (yield_matches "x.hu" 0 (some ⟨2024, 1, 1⟩) (some ⟨2024, 2, 1⟩) []
      [("https://x.hu/a", some "2024-01-15")]).1 ≠ [] := by
  refine ((accept_iff_in_window ⟨2024, 1, 1⟩ ⟨2024, 2, 1⟩).1 "x.hu" 0 []
    "https://x.hu/a" (some "2024-01-15") (by rfl)).mpr ?_
  exact ⟨"2024-01-15", ⟨2024, 1, 15⟩, rfl, by rfl, by decide, by decide⟩

/-! ## C4: the early-stop rule -/

/-- C4 (counterexample): with `date_from` supplied but no dated link ever
accepted, `empty_streak` passes the threshold without stopping the
pagination: every page holds only links dated before `date_from`, the
streak climbs 1, 2, 3, ... yet the loop visits all 8 pages of the page
cap (its break also requires `in_range_seen`), where the claim requires
stopping as soon as the streak reaches 2 or 3. -/
theorem crawl_archivum_cap_cex :
    (crawl_archivum
        (fun _ => some [⟨"https://hvg.hu/itthon/20200101_regi", some ⟨2020, 1, 1⟩⟩])
        (some ⟨2024, 1, 1⟩) none false (some 8) 20 crawlInit).pagesFetched = 8 ∧
    (crawl_archivum
        (fun _ => some [⟨"https://hvg.hu/itthon/20200101_regi", some ⟨2020, 1, 1⟩⟩])
        (some ⟨2024, 1, 1⟩) none false (some 8) 20 crawlInit).emptyStreak = 8 ∧
    (3 : Nat) < 8 := by
  exact ⟨rfl, rfl, by decide⟩

/-- The accepted-link counter of the per-page loop equals the growth of
`found`. -/
theorem crawlProcessLinks_count (start endExcl : Option PyDate) (allow : Bool) :
    ∀ (links : List FoundUrl) (s : CrawlState),
      (crawlProcessLinks start endExcl allow s links).1.found.length =
        s.found.length + (crawlProcessLinks start endExcl allow s links).2 := by
  intro links
  induction links with
  | nil => intro s; simp [crawlProcessLinks]
  | cons fu rest ih =>
    intro s
    rw [crawlProcessLinks]
    by_cases h1 : s.seen.contains fu.url = true
    · rw [if_pos h1]
      exact ih _
    · rw [if_neg h1]
      by_cases h2 : within_range fu.pubdateGuess start endExcl allow = true
      · rw [if_pos h2]
        dsimp only
        have h := ih { s with
          found := s.found ++ [fu]
          seen := fu.url :: s.seen
          inRangeSeen := s.inRangeSeen || fu.pubdateGuess.isSome }
        dsimp only at h
        simp only [List.length_append, List.length_singleton] at h
        omega
      · rw [if_neg h2]
        exact ih _

/-- When every link on a page is dated strictly before `date_from`, the
per-page loop accepts nothing and changes none of the loop-relevant
state (found, seen, in_range_seen, page, pages_fetched, empty_streak). -/
theorem crawlProcessLinks_all_old (d0 : PyDate) (endExcl : Option PyDate) (allow : Bool) :
    ∀ (links : List FoundUrl) (s : CrawlState),
      (∀ fu ∈ links, ∃ dd, fu.pubdateGuess = some dd ∧ dateLt dd d0 = true) →
      (crawlProcessLinks (some d0) endExcl allow s links).1.found = s.found ∧
      (crawlProcessLinks (some d0) endExcl allow s links).1.seen = s.seen ∧
      (crawlProcessLinks (some d0) endExcl allow s links).1.inRangeSeen = s.inRangeSeen ∧
      (crawlProcessLinks (some d0) endExcl allow s links).1.page = s.page ∧
      (crawlProcessLinks (some d0) endExcl allow s links).1.pagesFetched = s.pagesFetched ∧
      (crawlProcessLinks (some d0) endExcl allow s links).1.emptyStreak = s.emptyStreak ∧
      (crawlProcessLinks (some d0) endExcl allow s links).2 = 0 := by
  intro links
  induction links with
  | nil =>
    intro s hold
    simp [crawlProcessLinks]
  | cons fu rest ih =>
    intro s hold
    obtain ⟨dd, hdd, hlt⟩ := hold fu (List.mem_cons_self _ _)
    have hwr : within_range fu.pubdateGuess (some d0) endExcl allow = false := by
      rw [hdd]
      simp [within_range, Option.any, hlt]
    rw [crawlProcessLinks]
    by_cases h1 : s.seen.contains fu.url = true
    · rw [if_pos h1]
      exact ih _ (fun b hb => hold b (List.mem_cons_of_mem _ hb))
    · rw [if_neg h1, if_neg (by rw [hwr]; exact Bool.false_ne_true)]
      exact ih _ (fun b hb => hold b (List.mem_cons_of_mem _ hb))

/-- One successfully fetched all-old page: the fetch counter advances,
the streak is incremented, and the rest of the loop state is kept. -/
theorem crawlStep_all_old (d0 : PyDate) (endExcl : Option PyDate) (allow : Bool)
    (s : CrawlState) (links : List FoundUrl)
    (hold : ∀ fu ∈ links, ∃ dd, fu.pubdateGuess = some dd ∧ dateLt dd d0 = true) :
    (crawlStep (some d0) endExcl allow s links).found = s.found ∧
    (crawlStep (some d0) endExcl allow s links).inRangeSeen = s.inRangeSeen ∧
    (crawlStep (some d0) endExcl allow s links).pagesFetched = s.pagesFetched + 1 ∧
    (crawlStep (some d0) endExcl allow s links).page = s.page ∧
    (crawlStep (some d0) endExcl allow s links).emptyStreak = s.emptyStreak + 1 := by
  obtain ⟨hf, hs, hirs, hpg, hpf, hes, hcnt⟩ := crawlProcessLinks_all_old d0 endExcl allow links
    { s with
        pagesFetched := s.pagesFetched + 1
        linksSeen := s.linksSeen + links.length } hold
  unfold crawlStep
  dsimp only
  rw [hcnt]
  exact ⟨hf, hirs, hpf, hpg, rfl⟩

/-- From any state that has already accepted a dated in-window link
(`in_range_seen`) and whose remaining pages are all-old, the loop
fetches at most `3 - empty_streak` more pages before stopping. -/
theorem crawl_archivum_bound (fetch : Nat → Option (List FoundUrl)) (d0 : PyDate)
    (endExcl : Option PyDate) (allow : Bool) (maxPages : Option Nat) :
    ∀ (fuel : Nat) (s : CrawlState),
      s.inRangeSeen = true → s.emptyStreak ≤ 2 →
      (∀ p, p ≥ s.page → ∃ links, fetch p = some links ∧
        ∀ fu ∈ links, ∃ dd, fu.pubdateGuess = some dd ∧ dateLt dd d0 = true) →
      (crawl_archivum fetch (some d0) endExcl allow maxPages fuel s).pagesFetched ≤
        s.pagesFetched + (3 - s.emptyStreak) := by
  intro fuel
  induction fuel with
  | zero =>
    intro s hirs hstreak hpages
    rw [crawl_archivum]
    omega
  | succ fuel ih =>
    intro s hirs hstreak hpages
    rw [crawl_archivum]
    by_cases hmp : maxPages.any (fun m => s.page > m) = true
    · rw [if_pos hmp]
      omega
    · rw [if_neg hmp]
      obtain ⟨links, hf, hold⟩ := hpages s.page (le_refl _)
      rw [hf]
      dsimp only
      obtain ⟨hsf, hsi, hsp, hspg, hse⟩ := crawlStep_all_old d0 endExcl allow s links hold
      by_cases hbr : s.emptyStreak + 1 ≥ 3
      · rw [if_pos ⟨by rw [hsi]; exact hirs, by rw [hse]; exact hbr, rfl⟩]
        omega
      · rw [if_neg (by rw [hse]; rintro ⟨-, hge, -⟩; omega)]
        have hrec := ih
          { crawlStep (some d0) endExcl allow s links with
              page := (crawlStep (some d0) endExcl allow s links).page + 1 }
          (by dsimp only; rw [hsi]; exact hirs)
          (by dsimp only; rw [hse]; omega)
          (by
            intro p hp
            dsimp only at hp
            rw [hspg] at hp
            exact hpages p (by omega))
        have h1 : ({ crawlStep (some d0) endExcl allow s links with
            page := (crawlStep (some d0) endExcl allow s links).page + 1 } :
              CrawlState).pagesFetched = s.pagesFetched + 1 := by
          dsimp only
          exact hsp
        have h2 : ({ crawlStep (some d0) endExcl allow s links with
            page := (crawlStep (some d0) endExcl allow s links).page + 1 } :
              CrawlState).emptyStreak = s.emptyStreak + 1 := by
          dsimp only
          exact hse
        dsimp only at hrec h1 h2
        omega

/-- A page at index ≥ 2 whose links are all out of the lower bound
triggers the adapter's all-old early stop immediately: at most one more
fetch happens. -/
theorem listingGo_all_old_bound (fetch : Nat → Option (List (String × Option String)))
    (domain : String) (now : Int) (d0 : PyDate) (endExcl : Option PyDate) :
    ∀ (fuel pageI : Nat) (s : ListingState), 2 ≤ pageI →
      (∀ p, p ≥ pageI → ∃ ms, fetch p = some ms ∧
        ms.all (fun pr => ! adapter_within_range pr.2 (some d0) none) = true) →
      (listingGo fetch domain now (some d0) endExcl fuel pageI s).fetched ≤ s.fetched + 1 := by
  intro fuel
  cases fuel with
  | zero =>
    intro pageI s h2 hpages
    rw [listingGo]
    omega
  | succ fuel =>
    intro pageI s h2 hpages
    obtain ⟨ms, hf, hall⟩ := hpages pageI (le_refl _)
    rw [listingGo, hf]
    dsimp only
    rw [if_pos ⟨rfl, hall, by omega⟩]

/-- C4 (amended): (i) after each successfully fetched page,
`crawl_archivum`'s `empty_streak` is reset to 0 when the page grew
`found` (contributed a newly-accepted link after dedup) and incremented
otherwise; (ii) once a dated in-window link has been accepted
(`in_range_seen`) and `date_from` is supplied, pagination over all-old
pages stops within `3 - empty_streak` further fetches — the code's
threshold is 3 and it additionally requires `in_range_seen`, which the
claim omits (see the counterexample); (iii) the MVP adapter's listing
loop has no streak at all: it stops after at most 2 fetches when every
page from index 2 on contains only links dated before `date_from`. -/
theorem empty_streak_stop_rule :
    (∀ (start endExcl : Option PyDate) (allow : Bool) (s : CrawlState)
        (links : List FoundUrl),
      (crawlStep start endExcl allow s links).emptyStreak =
        if (crawlStep start endExcl allow s links).found.length > s.found.length then 0
        else s.emptyStreak + 1) ∧
    (∀ (fetch : Nat → Option (List FoundUrl)) (d0 : PyDate) (endExcl : Option PyDate)
        (allow : Bool) (maxPages : Option Nat) (fuel : Nat) (s : CrawlState),
      s.inRangeSeen = true → s.emptyStreak = 0 →
      (∀ p, p ≥ s.page → ∃ links, fetch p = some links ∧
        ∀ fu ∈ links, ∃ dd, fu.pubdateGuess = some dd ∧ dateLt dd d0 = true) →
      (crawl_archivum fetch (some d0) endExcl allow maxPages fuel s).pagesFetched ≤
        s.pagesFetched + 3) ∧
    (∀ (fetch : Nat → Option (List (String × Option String))) (domain : String)
        (now : Int) (d0 : PyDate) (endExcl : Option PyDate) (maxPages : Nat),
      (∀ p, p ≥ 2 → ∃ ms, fetch p = some ms ∧
        ms.all (fun pr => ! adapter_within_range pr.2 (some d0) none) = true) →
      (iter_archive_listing fetch domain now (some d0) endExcl maxPages).fetched ≤ 2) := by
  refine ⟨?_, ?_, ?_⟩
  · intro start endExcl allow s links
    have hcnt := crawlProcessLinks_count start endExcl allow links
      { s with
          pagesFetched := s.pagesFetched + 1
          linksSeen := s.linksSeen + links.length }
    unfold crawlStep
    dsimp only
    dsimp only at hcnt
    by_cases hp : (crawlProcessLinks start endExcl allow
        { s with
            pagesFetched := s.pagesFetched + 1
            linksSeen := s.linksSeen + links.length } links).2 > 0
    · rw [if_pos hp, if_pos (by omega)]
    · rw [if_neg hp, if_neg (by omega)]
  · intro fetch d0 endExcl allow maxPages fuel s hirs hstreak hpages
    have h := crawl_archivum_bound fetch d0 endExcl allow maxPages fuel s hirs
      (by omega) hpages
    omega
  · intro fetch domain now d0 endExcl maxPages hpages
    unfold iter_archive_listing
    cases maxPages with
    | zero =>
      rw [listingGo]
      exact Nat.zero_le 2
    | succ mp =>
      rw [listingGo]
      cases hf : fetch 1 with
      | none =>
        dsimp only
        have h := listingGo_all_old_bound fetch domain now d0 endExcl mp 2
          ⟨[], [], 1⟩ (le_refl 2) (fun p hp => hpages p hp)
        exact h.trans (by dsimp only; omega)
      | some ms =>
        dsimp only
        rw [if_neg (by rintro ⟨-, -, hgt⟩; omega)]
        have h := listingGo_all_old_bound fetch domain now d0 endExcl mp 2
          { out := [] ++ (yield_matches domain now (some d0) endExcl [] ms).1
            seen := (yield_matches domain now (some d0) endExcl [] ms).2
            fetched := 1 } (le_refl 2) (fun p hp => hpages p hp)
        exact h.trans (by dsimp only; omega)

/-- C4 witness: the bounded-stop part applied to a concrete mid-run
state (three pages already fetched, a dated link already accepted) with
every further page all-old: at most three more fetches happen. -/
theorem empty_streak_stop_rule_witness :
    (crawl_archivum
        (fun _ => some [⟨"https://hvg.hu/itthon/20200101_regi", some ⟨2020, 1, 1⟩⟩])
        (some ⟨2024, 1, 1⟩) none false none 50
        ⟨[⟨"https://hvg.hu/itthon/20240102_friss", some ⟨2024, 1, 2⟩⟩],
          ["https://hvg.hu/itthon/20240102_friss"], 4, 0, true, 3, 0, 0, 0, 1⟩).pagesFetched ≤
      3 + 3 :=
  empty_streak_stop_rule.2.1
    (fun _ => some [⟨"https://hvg.hu/itthon/20200101_regi", some ⟨2020, 1, 1⟩⟩])
    ⟨2024, 1, 1⟩ none false none 50
    ⟨[⟨"https://hvg.hu/itthon/20240102_friss", some ⟨2024, 1, 2⟩⟩],
      ["https://hvg.hu/itthon/20240102_friss"], 4, 0, true, 3, 0, 0, 0, 1⟩
    rfl rfl
    (fun p _ => ⟨[⟨"https://hvg.hu/itthon/20200101_regi", some ⟨2020, 1, 1⟩⟩], rfl,
      fun fu hfu => by
        rcases List.mem_singleton.mp hfu with rfl
        exact ⟨⟨2020, 1, 1⟩, rfl, by decide⟩⟩)

/-! ## C7 infrastructure: list scanning over delimiter-free prefixes -/

/-- `takeWhile` passes over a prefix whose elements all satisfy the
predicate. -/
theorem takeWhile_append_all (p : Char → Bool) (l1 l2 : List Char)
    (h : ∀ c ∈ l1, p c = true) :
    (l1 ++ l2).takeWhile p = l1 ++ l2.takeWhile p := by
  induction l1 with
  | nil => simp
  | cons a rest ih =>
    simp only [List.cons_append, List.takeWhile_cons, h a (List.mem_cons_self _ _), if_true]
    rw [ih (fun c hc => h c (List.mem_cons_of_mem _ hc))]

/-- `dropWhile` passes over a prefix whose elements all satisfy the
predicate. -/
theorem dropWhile_append_all (p : Char → Bool) (l1 l2 : List Char)
    (h : ∀ c ∈ l1, p c = true) :
    (l1 ++ l2).dropWhile p = l2.dropWhile p := by
  induction l1 with
  | nil => simp
  | cons a rest ih =>
    simp only [List.cons_append, List.dropWhile_cons, h a (List.mem_cons_self _ _), if_true]
    exact ih (fun c hc => h c (List.mem_cons_of_mem _ hc))

/-- A scan stops immediately on a list whose head (if any) fails the
predicate. -/
theorem takeWhile_stop (p : Char → Bool) (l : List Char)
    (h : ∀ c, l.head? = some c → p c = false) :
    l.takeWhile p = [] ∧ l.dropWhile p = l := by
  cases l with
  | nil => simp
  | cons a rest =>
    have ha := h a rfl
    rw [List.takeWhile_cons, List.dropWhile_cons]
    rw [if_neg (by rw [ha]; exact Bool.false_ne_true), if_neg (by rw [ha]; exact Bool.false_ne_true)]
    exact ⟨rfl, rfl⟩

/-- A list avoiding a character does not contain it. -/
theorem contains_eq_false_of_all (ch : Char) (l : List Char)
    (h : ∀ c ∈ l, c ≠ ch) : l.contains ch = false := by
  rw [Bool.eq_false_iff]
  intro hc
  have : ch ∈ l := by
    rw [List.contains_eq_any_beq] at hc
    obtain ⟨c, hcmem, hcb⟩ := List.any_eq_true.mp hc
    rw [beq_iff_eq] at hcb
    rw [← hcb] at hcmem
    exact hcmem
  exact h ch this rfl

/-- Stripping a character that is not at the end changes nothing. -/
theorem pyRstripChar_of_getLast (ch : Char) (l : List Char)
    (h : ∀ c, l.getLast? = some c → c ≠ ch) : pyRstripChar ch l = l := by
  unfold pyRstripChar
  cases hr : l.reverse with
  | nil =>
    have hl : l = [] := List.reverse_eq_nil_iff.mp hr
    subst hl
    rfl
  | cons a rest =>
    have hlast : l.getLast? = some a := by
      rw [← List.head?_reverse, hr]
      rfl
    have ha := h a hlast
    rw [List.dropWhile_cons, if_neg (by simp [ha])]
    rw [← hr, List.reverse_reverse]

/-- Splitting at a character that does not occur. -/
theorem splitFirstChar_none (ch : Char) (X : List Char) (hX : ∀ c ∈ X, c ≠ ch) :
    splitFirstChar ch X = (X, none) := by
  unfold splitFirstChar
  rw [if_neg (by rw [contains_eq_false_of_all ch X hX]; exact Bool.false_ne_true)]

/-- Splitting at the first occurrence of a character, after a prefix
that avoids it. -/
theorem splitFirstChar_found (ch : Char) (X rest : List Char) (hX : ∀ c ∈ X, c ≠ ch) :
    splitFirstChar ch (X ++ ch :: rest) = (X, some rest) := by
  unfold splitFirstChar
  have hc : (X ++ ch :: rest).contains ch = true := by
    rw [List.contains_eq_any_beq]
    exact List.any_eq_true.mpr ⟨ch, List.mem_append_right _ (List.mem_cons_self _ _), by simp⟩
  rw [if_pos hc]
  have htw : (X ++ ch :: rest).takeWhile (fun c => c ≠ ch) = X := by
    rw [takeWhile_append_all _ X _ (fun c hc2 => by simp [hX c hc2])]
    rw [List.takeWhile_cons, if_neg (by simp)]
    exact List.append_nil X
  have hdw : (X ++ ch :: rest).dropWhile (fun c => c ≠ ch) = ch :: rest := by
    rw [dropWhile_append_all _ X _ (fun c hc2 => by simp [hX c hc2])]
    rw [List.dropWhile_cons, if_neg (by simp)]
  rw [htw, hdw]
  rfl

/-- Consequences of `goodNetlocChar`. -/
theorem goodNetlocChar_spec (c : Char) (h : goodNetlocChar c = true) :
    netlocDelim c = false ∧ unsafeUrlChar c = false ∧ c ≠ '[' ∧ c ≠ ']' := by
  simp only [goodNetlocChar, Bool.not_eq_true', Bool.or_eq_false_iff,
    decide_eq_false_iff_not] at h
  obtain ⟨⟨⟨⟨⟨h1, h2⟩, h3⟩, h4⟩, h5⟩, h6⟩ := h
  exact ⟨by simp [netlocDelim, h1, h2, h3], h6, h4, h5⟩

/-- Consequences of `goodPathChar`. -/
theorem goodPathChar_spec (c : Char) (h : goodPathChar c = true) :
    c ≠ '?' ∧ c ≠ '#' ∧ c ≠ ';' ∧ unsafeUrlChar c = false := by
  simp only [goodPathChar, Bool.not_eq_true', Bool.or_eq_false_iff,
    decide_eq_false_iff_not] at h
  obtain ⟨⟨⟨h1, h2⟩, h3⟩, h4⟩ := h
  exact ⟨h1, h2, h3, h4⟩

/-- Consequences of `goodQueryChar`. -/
theorem goodQueryChar_spec (c : Char) (h : goodQueryChar c = true) :
    c ≠ '#' ∧ unsafeUrlChar c = false := by
  simp only [goodQueryChar, Bool.not_eq_true', Bool.or_eq_false_iff,
    decide_eq_false_iff_not] at h
  exact ⟨h.1, h.2⟩

/-- The fragment/query separation on a well-formed tail. -/
theorem splitFragQuery_shape (scheme N P : List Char) (query frag : String)
    (hpc : ∀ c ∈ P, goodPathChar c = true)
    (hq : ∀ c ∈ query.data, goodQueryChar c = true) :
    splitFragQuery scheme N
        (P ++ ((if query = "" then "" else "?" ++ query).data ++
          (if frag = "" then "" else "#" ++ frag).data)) =
      ⟨scheme, N, P, query.data, frag.data⟩ := by
  have hPh : ∀ c ∈ P, c ≠ '#' := fun c hc => (goodPathChar_spec c (hpc c hc)).2.1
  have hPq : ∀ c ∈ P, c ≠ '?' := fun c hc => (goodPathChar_spec c (hpc c hc)).1
  have hQh : ∀ c ∈ query.data, c ≠ '#' := fun c hc => (goodQueryChar_spec c (hq c hc)).1
  by_cases hqe : query = ""
  · by_cases hfe : frag = ""
    · rw [if_pos hqe, if_pos hfe]
      subst hqe hfe
      unfold splitFragQuery
      rw [show (("" : String).data ++ ("" : String).data : List Char) = [] from rfl,
        List.append_nil]
      rw [splitFirstChar_none '#' P hPh]
      simp only [Option.getD_none]
      rw [splitFirstChar_none '?' P hPq]
      rfl
    · rw [if_pos hqe, if_neg hfe]
      subst hqe
      unfold splitFragQuery
      rw [show ((("" : String).data ++ ("#" ++ frag).data : List Char)) =
        '#' :: frag.data from by rw [String.data_append]; rfl]
      rw [splitFirstChar_found '#' P frag.data hPh]
      simp only [Option.getD_some]
      rw [splitFirstChar_none '?' P hPq]
      rfl
  · by_cases hfe : frag = ""
    · rw [if_neg hqe, if_pos hfe]
      subst hfe
      unfold splitFragQuery
      rw [show ((("?" ++ query).data ++ ("" : String).data : List Char)) =
        '?' :: query.data from by rw [List.append_nil, String.data_append]; rfl]
      have hall : ∀ c ∈ P ++ '?' :: query.data, c ≠ '#' := by
        intro c hc
        rcases List.mem_append.mp hc with hc | hc
        · exact hPh c hc
        · rcases List.mem_cons.mp hc with rfl | hc
          · decide
          · exact hQh c hc
      rw [show (P ++ '?' :: query.data : List Char) = P ++ '?' :: query.data from rfl]
      rw [splitFirstChar_none '#' _ hall]
      simp only [Option.getD_none]
      rw [splitFirstChar_found '?' P query.data hPq]
      rfl
    · rw [if_neg hqe, if_neg hfe]
      unfold splitFragQuery
      rw [show ((("?" ++ query).data ++ ("#" ++ frag).data : List Char)) =
        ('?' :: query.data) ++ '#' :: frag.data from by
          rw [String.data_append, String.data_append]; rfl]
      rw [show (P ++ ('?' :: query.data ++ '#' :: frag.data) : List Char) =
        (P ++ '?' :: query.data) ++ '#' :: frag.data from by rw [List.append_assoc]]
      have hall : ∀ c ∈ P ++ '?' :: query.data, c ≠ '#' := by
        intro c hc
        rcases List.mem_append.mp hc with hc | hc
        · exact hPh c hc
        · rcases List.mem_cons.mp hc with rfl | hc
          · decide
          · exact hQh c hc
      rw [splitFirstChar_found '#' _ frag.data hall]
      simp only [Option.getD_some]
      rw [splitFirstChar_found '?' P query.data hPq]
      rfl

/-- `urlsplit` on `https://<netloc><tail>` with a clean netloc: the
scheme is recognized, the netloc is split at the first delimiter, and
the tail goes to fragment/query separation. -/
theorem urlsplit_https_shape (netloc : String) (T : List Char)
    (hn : ∀ c ∈ netloc.data, goodNetlocChar c = true)
    (hTu : ∀ c ∈ T, unsafeUrlChar c = false)
    (hThead : ∀ c, T.head? = some c → netlocDelim c = true) :
    urlsplitChars ('h':: 't':: 't':: 'p':: 's':: ':':: '/':: '/'::(netloc.data ++ T)) [] =
      some (splitFragQuery "https".data netloc.data T) := by
  have hNdelim : ∀ c ∈ netloc.data, (! netlocDelim c) = true := fun c hc => by
    rw [(goodNetlocChar_spec c (hn c hc)).1]
    rfl
  have hNclean : ∀ c ∈ netloc.data, unsafeUrlChar c = false :=
    fun c hc => (goodNetlocChar_spec c (hn c hc)).2.1
  have hsplitL : ('h':: 't':: 't':: 'p':: 's':: ':':: '/':: '/'::(netloc.data ++ T) : List Char) =
      "https".data ++ (':':: '/':: '/'::(netloc.data ++ T)) := rfl
  have h1 : ('h':: 't':: 't':: 'p':: 's':: ':':: '/':: '/'::(netloc.data ++ T) : List Char).dropWhile
      (fun c => c.toNat ≤ 0x20) = 'h':: 't':: 't':: 'p':: 's':: ':':: '/':: '/'::(netloc.data ++ T) := by
    rw [List.dropWhile_cons, if_neg (by decide)]
  have h2 : ('h':: 't':: 't':: 'p':: 's':: ':':: '/':: '/'::(netloc.data ++ T) : List Char).filter
      (fun c => ! unsafeUrlChar c) = 'h':: 't':: 't':: 'p':: 's':: ':':: '/':: '/'::(netloc.data ++ T) := by
    rw [List.filter_eq_self]
    intro c hc
    simp only [List.mem_cons, List.mem_append] at hc
    rcases hc with rfl | rfl | rfl | rfl | rfl | rfl | rfl | rfl | hc | hc
    · decide
    · decide
    · decide
    · decide
    · decide
    · decide
    · decide
    · decide
    · rw [hNclean c hc]; rfl
    · rw [hTu c hc]; rfl
  have h3 : ('h':: 't':: 't':: 'p':: 's':: ':':: '/':: '/'::(netloc.data ++ T) : List Char).takeWhile
      (fun c => c ≠ ':') = "https".data := by
    rw [hsplitL, takeWhile_append_all _ _ _ (by decide), List.takeWhile_cons, if_neg (by decide)]
    exact List.append_nil _
  have h4 : ('h':: 't':: 't':: 'p':: 's':: ':':: '/':: '/'::(netloc.data ++ T) : List Char).dropWhile
      (fun c => c ≠ ':') = ':':: '/':: '/'::(netloc.data ++ T) := by
    rw [hsplitL, dropWhile_append_all _ _ _ (by decide), List.dropWhile_cons, if_neg (by decide)]
  have hstop := takeWhile_stop (fun c => ! netlocDelim c) T
    (fun c hc => by show (! netlocDelim c) = false; rw [hThead c hc]; rfl)
  have h5 : (netloc.data ++ T).takeWhile (fun c => ! netlocDelim c) = netloc.data := by
    rw [takeWhile_append_all _ _ _ hNdelim, hstop.1]
    exact List.append_nil _
  have h6 : (netloc.data ++ T).dropWhile (fun c => ! netlocDelim c) = T := by
    rw [dropWhile_append_all _ _ _ hNdelim, hstop.2]
  have h7 : netloc.data.contains '[' = false :=
    contains_eq_false_of_all _ _ (fun c hc => (goodNetlocChar_spec c (hn c hc)).2.2.1)
  have h8 : netloc.data.contains ']' = false :=
    contains_eq_false_of_all _ _ (fun c hc => (goodNetlocChar_spec c (hn c hc)).2.2.2)
  have h9 : "https".data.map Char.toLower = "https".data := by decide
  simp only [urlsplitChars]
  rw [h1, h2, h3, h4]
  have hlen : ("https".data).length = 5 := by decide
  rw [if_pos ⟨by
      rw [hlen]
      simp only [List.length_cons, List.length_append]
      omega,
    by decide, rfl, by decide⟩]
  rw [h9, List.tail_cons]
  show (if (((netloc.data ++ T).takeWhile (fun c => ! netlocDelim c)).contains '[') !=
        (((netloc.data ++ T).takeWhile (fun c => ! netlocDelim c)).contains ']') then none
      else some (splitFragQuery "https".data
        ((netloc.data ++ T).takeWhile (fun c => ! netlocDelim c))
        ((netloc.data ++ T).dropWhile (fun c => ! netlocDelim c)))) =
    some (splitFragQuery "https".data netloc.data T)
  rw [h5, h6, h7, h8]
  rw [if_neg (by decide)]

/-- `urlparse` on a well-formed `https://netloc path ?query #frag` URL
recovers exactly the five components (params stay empty since the path
has no `;`). -/
theorem urlparse_https_shape (netloc path query frag : String)
    (hn : ∀ c ∈ netloc.data, goodNetlocChar c = true)
    (hpc : ∀ c ∈ path.data, goodPathChar c = true)
    (hq : ∀ c ∈ query.data, goodQueryChar c = true)
    (hf : ∀ c ∈ frag.data, goodFragChar c = true)
    (hphead : path = "" ∨ path.data.head? = some '/') :
    urlparseChars ('h':: 't':: 't':: 'p':: 's':: ':':: '/':: '/'::(netloc.data ++
        (path.data ++ ((if query = "" then "" else "?" ++ query).data ++
          (if frag = "" then "" else "#" ++ frag).data)))) [] =
      some ⟨"https".data, netloc.data, path.data, [], query.data, frag.data⟩ := by
  set T := path.data ++ ((if query = "" then "" else "?" ++ query).data ++
      (if frag = "" then "" else "#" ++ frag).data) with hTdef
  have hTu : ∀ c ∈ T, unsafeUrlChar c = false := by
    intro c hc
    rw [hTdef] at hc
    simp only [List.mem_append] at hc
    rcases hc with hc | hc | hc
    · exact (goodPathChar_spec c (hpc c hc)).2.2.2
    · by_cases hqe : query = ""
      · rw [if_pos hqe] at hc
        exact absurd hc (List.not_mem_nil c)
      · rw [if_neg hqe] at hc
        have hc' : c ∈ '?' :: query.data := hc
        rcases List.mem_cons.mp hc' with rfl | hc''
        · decide
        · exact (goodQueryChar_spec c (hq c hc'')).2
    · by_cases hfe : frag = ""
      · rw [if_pos hfe] at hc
        exact absurd hc (List.not_mem_nil c)
      · rw [if_neg hfe] at hc
        have hc' : c ∈ '#' :: frag.data := hc
        rcases List.mem_cons.mp hc' with rfl | hc''
        · decide
        · have := hf c hc''
          simp only [goodFragChar, Bool.not_eq_true'] at this
          exact this
  have hThead : ∀ c, T.head? = some c → netlocDelim c = true := by
    intro c hcc
    rw [hTdef] at hcc
    rcases hphead with hpe | hph
    · rw [hpe] at hcc
      simp only [show ("" : String).data = ([] : List Char) from rfl,
        List.nil_append] at hcc
      by_cases hqe : query = ""
      · rw [if_pos hqe] at hcc
        simp only [show ("" : String).data = ([] : List Char) from rfl,
          List.nil_append] at hcc
        by_cases hfe : frag = ""
        · rw [if_pos hfe] at hcc
          exact absurd hcc (by simp)
        · rw [if_neg hfe] at hcc
          have hcc' : ('#' :: frag.data : List Char).head? = some c := hcc
          rw [List.head?_cons] at hcc'
          cases Option.some.inj hcc'
          decide
      · rw [if_neg hqe] at hcc
        have hcc' : (('?' :: query.data : List Char) ++ _).head? = some c := hcc
        rw [List.cons_append, List.head?_cons] at hcc'
        cases Option.some.inj hcc'
        decide
    · cases hpd : path.data with
      | nil => rw [hpd] at hph; exact absurd hph (by simp)
      | cons a rest =>
        rw [hpd] at hph hcc
        rw [List.head?_cons] at hph
        cases Option.some.inj hph
        rw [List.cons_append, List.head?_cons] at hcc
        cases Option.some.inj hcc
        decide
  have hs := urlsplit_https_shape netloc T hn hTu hThead
  have hsp := splitFragQuery_shape "https".data netloc.data path.data query frag hpc hq
  have hsemi : path.data.contains ';' = false :=
    contains_eq_false_of_all _ _ (fun c hc => (goodPathChar_spec c (hpc c hc)).2.2.1)
  unfold urlparseChars
  rw [hs, hTdef, hsp]
  show (if usesParams.contains "https".data ∧ path.data.contains ';' then
      some (UrlParseC.mk "https".data netloc.data (splitparams path.data).1
        (splitparams path.data).2 query.data frag.data)
    else some (UrlParseC.mk "https".data netloc.data path.data [] query.data frag.data)) =
    some (UrlParseC.mk "https".data netloc.data path.data [] query.data frag.data)
  rw [if_neg (fun hand => absurd hand.2 (by rw [hsemi]; exact Bool.false_ne_true))]

/-- Two strings are equal iff their character lists are. -/
theorem string_eq_iff_data (s t : String) : s = t ↔ s.data = t.data :=
  ⟨fun h => h ▸ rfl, fun h => by cases s; cases t; exact congrArg String.mk h⟩

/-- Build a string equality from a character-list equality. -/
theorem stringMk_eq_of_data (l : List Char) (s : String) (h : l = s.data) :
    String.mk l = s := by
  cases s
  exact congrArg String.mk h

/-- The head of an append with a nonempty left part. -/
theorem append_head? (P Tl : List Char) (h : P ≠ []) : (P ++ Tl).head? = P.head? := by
  cases P with
  | nil => exact absurd rfl h
  | cons a rest => rfl

/-- `rstrip` splits the list into the kept part and the stripped tail. -/
theorem pyRstripChar_split (ch : Char) (l : List Char) :
    l = pyRstripChar ch l ++ (l.reverse.takeWhile (fun c => c = ch)).reverse := by
  have h1 : l.reverse.takeWhile (fun c => c = ch) ++ l.reverse.dropWhile (fun c => c = ch) =
      l.reverse := List.takeWhile_append_dropWhile _ _
  calc l = l.reverse.reverse := (List.reverse_reverse l).symm
  _ = (l.reverse.takeWhile (fun c => c = ch) ++ l.reverse.dropWhile (fun c => c = ch)).reverse := by
      rw [h1]
  _ = (l.reverse.dropWhile (fun c => c = ch)).reverse ++
      (l.reverse.takeWhile (fun c => c = ch)).reverse := List.reverse_append _ _

/-- A nonempty `rstrip` result keeps the original head. -/
theorem pyRstripChar_head (ch : Char) (l : List Char) (hne : pyRstripChar ch l ≠ []) :
    (pyRstripChar ch l).head? = l.head? := by
  have h2 := append_head? (pyRstripChar ch l)
    ((l.reverse.takeWhile (fun c => c = ch)).reverse) hne
  rw [← pyRstripChar_split ch l] at h2
  exact h2.symm

/-- On a path that is neither empty nor the root, `canonPathSpec` is the
full right-strip of slashes. -/
theorem canonPathSpec_data_of_ne (path : String) (hp : path ≠ "") (h1 : path ≠ "/") :
    (canonPathSpec path).data = pyRstripChar '/' path.data := by
  simp only [canonPathSpec]
  rw [if_neg hp, if_neg h1]

/-- The code's path transformation in `canonicalize_url` computes
`canonPathSpec`. -/
theorem canonPath_eq (path : String) :
    (if (if path.data = [] then ['/'] else path.data) ≠ ['/'] ∧
        (if path.data = [] then ['/'] else path.data).getLast? = some '/' then
      pyRstripChar '/' (if path.data = [] then ['/'] else path.data)
    else (if path.data = [] then ['/'] else path.data)) = (canonPathSpec path).data := by
  by_cases h0 : path.data = []
  · have hp : path = "" := (string_eq_iff_data path "").mpr h0
    rw [if_pos h0, hp]
    decide
  · rw [if_neg h0]
    have hp : path ≠ "" := fun h => h0 (by rw [h])
    by_cases h1 : path = "/"
    · rw [h1]
      decide
    · rw [canonPathSpec_data_of_ne path hp h1]
      by_cases h2 : path.data.getLast? = some '/'
      · rw [if_pos ⟨fun he => h1 ((string_eq_iff_data path "/").mpr he), h2⟩]
      · rw [if_neg (fun hand => h2 hand.2)]
        exact (pyRstripChar_of_getLast '/' path.data
          (fun c hc hceq => h2 (hceq ▸ hc))).symm

/-- The canonical path of a rooted (or empty) path is empty or rooted. -/
theorem canonPathSpec_head (path : String)
    (hphead : path = "" ∨ path.data.head? = some '/') :
    (canonPathSpec path).data = [] ∨ (canonPathSpec path).data.head? = some '/' := by
  by_cases hp : path = ""
  · right
    rw [hp]
    decide
  · by_cases h1 : path = "/"
    · right
      rw [h1]
      decide
    · rw [canonPathSpec_data_of_ne path hp h1]
      by_cases hne : pyRstripChar '/' path.data = []
      · exact Or.inl hne
      · right
        rw [pyRstripChar_head '/' path.data hne]
        rcases hphead with he | hh
        · exact absurd he hp
        · exact hh

/-- The optional `?query` suffix, list level versus string level. -/
theorem qpart_data (query : String) :
    (if query.data = [] then [] else '?' :: query.data) =
      (if query = "" then "" else "?" ++ query).data := by
  by_cases hq : query = ""
  · rw [hq]
    decide
  · have hqd : query.data ≠ [] := fun h => hq ((string_eq_iff_data query "").mpr h)
    rw [if_neg hqd, if_neg hq]
    rfl

/-- The optional `#frag` suffix, list level versus string level. -/
theorem fpart_data (frag : String) :
    (if frag.data = [] then [] else '#' :: frag.data) =
      (if frag = "" then "" else "#" ++ frag).data := by
  by_cases hf : frag = ""
  · rw [hf]
    decide
  · have hfd : frag.data ≠ [] := fun h => hf ((string_eq_iff_data frag "").mpr h)
    rw [if_neg hfd, if_neg hf]
    rfl

/-- Computation of `urlunparse` on an https split with empty params and
a rooted-or-empty path. -/
theorem urlunparse_https_compute (lnet lpath lq lf : List Char)
    (hnet : lnet ≠ [])
    (hpath : lpath = [] ∨ lpath.head? = some '/') :
    urlunparseChars ⟨"https".data, lnet, lpath, [], lq, lf⟩ =
      (("https".data ++ ':':: '/':: '/'::(lnet ++ lpath)) ++
        (if lq = [] then [] else '?'::lq)) ++ (if lf = [] then [] else '#'::lf) := by
  have hu2 : (if lpath ≠ [] ∧ lpath.take 1 ≠ ['/'] then '/'::lpath else lpath) = lpath := by
    rcases hpath with he | hh
    · rw [if_neg (fun hand => hand.1 he)]
    · cases lpath with
      | nil => exact absurd hh (by simp)
      | cons a rest =>
        rw [List.head?_cons] at hh
        cases Option.some.inj hh
        rw [if_neg (fun hand => hand.2 rfl)]
  simp only [urlunparseChars, urlunsplitChars]
  rw [if_neg (fun h : ([] : List Char) ≠ [] => h rfl)]
  rw [if_pos (Or.inl hnet), hu2, if_pos (show ("https".data : List Char) ≠ [] by decide)]
  by_cases hlf : lf = []
  · rw [if_neg (fun h => h hlf), if_pos hlf, List.append_nil]
    by_cases hlq : lq = []
    · rw [if_neg (fun h => h hlq), if_pos hlq, List.append_nil]
    · rw [if_pos hlq, if_neg hlq]
  · rw [if_pos hlf, if_neg hlf]
    by_cases hlq : lq = []
    · rw [if_neg (fun h => h hlq), if_pos hlq, List.append_nil]
    · rw [if_pos hlq, if_neg hlq]

/-- C7: amended claim.  On a well-formed URL built from an https scheme, a
host, a rooted (or empty) path, an optional query and an optional
fragment, `canonicalize_url` applies exactly these transformations: the
scheme stays `https` (for either value of the force-https flag), the host
is lower-cased, and the path is replaced by `canonPathSpec`, which strips
ALL trailing slashes from a non-root path (not just one; a path of only
slashes becomes empty) and maps an empty path to `/`; the query and
fragment components pass through unchanged.  This corrects the claim's
"strips a single trailing slash": the counterexample
`canonicalize_single_slash_cex` shows one application already removes
both slashes of `/a//`. -/
theorem canonicalize_component_shape (b : Bool) (netloc path query frag : String)
    (hnn : netloc ≠ "")
    (hn : ∀ c ∈ netloc.data, goodNetlocChar c = true)
    (hpc : ∀ c ∈ path.data, goodPathChar c = true)
    (hq : ∀ c ∈ query.data, goodQueryChar c = true)
    (hf : ∀ c ∈ frag.data, goodFragChar c = true)
    (hphead : path = "" ∨ path.data.head? = some '/') :
    canonicalize_url b ("https://" ++ netloc ++ path ++
        (if query = "" then "" else "?" ++ query) ++
        (if frag = "" then "" else "#" ++ frag)) =
      "https://" ++ pyLower netloc ++ canonPathSpec path ++
        (if query = "" then "" else "?" ++ query) ++
        (if frag = "" then "" else "#" ++ frag) := by
  have hdata : ("https://" ++ netloc ++ path ++
      (if query = "" then "" else "?" ++ query) ++
      (if frag = "" then "" else "#" ++ frag)).data =
      'h':: 't':: 't':: 'p':: 's':: ':':: '/':: '/'::(netloc.data ++
        (path.data ++ ((if query = "" then "" else "?" ++ query).data ++
          (if frag = "" then "" else "#" ++ frag).data))) := by
    simp only [String.data_append, List.append_assoc]
    rfl
  have hnetne : netloc.data ≠ [] :=
    fun h => hnn ((string_eq_iff_data netloc "").mpr h)
  have hnetmap : netloc.data.map Char.toLower ≠ [] := by
    cases hnd : netloc.data with
    | nil => exact absurd hnd hnetne
    | cons a rest => simp
  unfold canonicalize_url
  rw [hdata, urlparse_https_shape netloc path query frag hn hpc hq hf hphead]
  show String.mk (urlunparseChars (UrlParseC.mk
      (if b then "https".data
        else (if ("https".data : List Char) = [] then "https".data else "https".data))
      (netloc.data.map Char.toLower)
      (if (if path.data = [] then ['/'] else path.data) ≠ ['/'] ∧
          (if path.data = [] then ['/'] else path.data).getLast? = some '/' then
        pyRstripChar '/' (if path.data = [] then ['/'] else path.data)
      else (if path.data = [] then ['/'] else path.data))
      [] query.data frag.data)) = _
  have hsch : (if b then "https".data
      else (if ("https".data : List Char) = [] then "https".data else "https".data)) =
      "https".data := by
    cases b <;> simp
  rw [hsch, canonPath_eq path,
    urlunparse_https_compute (netloc.data.map Char.toLower) ((canonPathSpec path).data)
      query.data frag.data hnetmap (canonPathSpec_head path hphead)]
  apply stringMk_eq_of_data
  rw [qpart_data query, fpart_data frag]
  simp only [String.data_append, List.append_assoc, List.cons_append]
  rfl

/-- Witness for `canonicalize_component_shape` at a concrete URL: the
host is lower-cased and both trailing slashes of `/a/b//` are removed. -/
theorem canonicalize_component_shape_witness :
    canonicalize_url true ("https://" ++ "Example.com" ++ "/a/b//" ++
        (if "x=1" = "" then "" else "?" ++ "x=1") ++
        (if "sec" = "" then "" else "#" ++ "sec")) =
      "https://" ++ pyLower "Example.com" ++ canonPathSpec "/a/b//" ++
        (if "x=1" = "" then "" else "?" ++ "x=1") ++
        (if "sec" = "" then "" else "#" ++ "sec") :=
  canonicalize_component_shape true "Example.com" "/a/b//" "x=1" "sec"
    (by decide) (by decide) (by decide) (by decide) (by decide) (by decide)
